import Mathlib

/-!
Verification development for the plotstyle field-resolution engine
(`plotstyle.py`, `plotstyle_interface.py`, `plotstyle_validators.py`).

The engine resolves a layered declarative description of named fields into a
flat mapping.  We shallowly embed the Python code: Python values become the
inductive `Value` below, Python dicts become insertion-ordered association
lists, mutation becomes explicit state passing, and exceptions become
`Except String` / `Option String` results.
-/

namespace PlotStyle

/-- Intent tag attached by the custom YAML constructors
(`FieldIntent` in `plotstyle_interface.py`). -/
inductive FieldIntent where
  | implicitI
  | explicitI
deriving DecidableEq, Repr

/-- A Python value as it occurs in parsed documents: scalars, lists, dicts
(insertion-ordered, string keys), tuples, and `_TaggedValue` nodes produced
by the intent-tag YAML constructors. -/
inductive Value where
  | null
  | bool (b : Bool)
  | int (n : Int)
  | str (s : String)
  | list (xs : List Value)
  | tuple (xs : List Value)
  | dict (m : List (String × Value))
  | tagged (intent : FieldIntent) (v : Value)

/-- A Python dict with string keys: an insertion-ordered association list
with unique keys (uniqueness is maintained by `dinsert`).  The generic value
type lets the same structure model both document scopes (values = `Value`)
and `ParseContext.fieldProps` (values = normalized descriptors). -/
abbrev AList (α : Type) := List (String × α)

/-- A Python dict holding document values. -/
abbrev Dict := AList Value

/-- Dict lookup (`d[k]` raising modeled by the caller on `none`; `d.get(k)`). -/
def dlookup {α : Type} (m : AList α) (k : String) : Option α :=
  match m with
  | [] => none
  | (k2, v) :: rest => if k2 = k then some v else dlookup rest k

/-- Dict write `d[k] = v`: updates an existing key in place (keeping its
position, as Python dicts do) or appends a new key at the end. -/
def dinsert {α : Type} (m : AList α) (k : String) (v : α) : AList α :=
  match m with
  | [] => [(k, v)]
  | (k2, v2) :: rest => if k2 = k then (k, v) :: rest else (k2, v2) :: dinsert rest k v

/-- Dict key deletion (`del d[k]` when present; `d.pop(k, None)` otherwise). -/
def derase {α : Type} (m : AList α) (k : String) : AList α :=
  match m with
  | [] => []
  | (k2, v2) :: rest => if k2 = k then rest else (k2, v2) :: derase rest k

/-- A sequence of dict writes applied in order (`d.update(...)`, repeated
`d[k] = v`). -/
def dinsertAll {α : Type} (m : AList α) (ops : AList α) : AList α :=
  ops.foldl (fun acc kv => dinsert acc kv.1 kv.2) m

/-- `d1 | d2` in Python: all keys of `d1` then the new keys of `d2`,
with `d2`'s value winning on a common key. -/
def dunion {α : Type} (a b : AList α) : AList α := dinsertAll a b

/-- The last value written for a key by a sequence of dict writes, if any. -/
def wlast {α : Type} (ops : AList α) (k : String) : Option α :=
  ops.foldl (fun acc kv => if kv.1 = k then some kv.2 else acc) none

/-- Keys of a dict, in order. -/
def dkeys {α : Type} (m : AList α) : List String := m.map Prod.fst

/-- `d.setdefault(k, v)`: inserts `(k, v)` at the end only when `k` is absent. -/
def dsetdefault {α : Type} (m : AList α) (k : String) (v : α) : AList α :=
  match dlookup m k with
  | some _ => m
  | none => m ++ [(k, v)]

/-- Python `set.add` on a set modeled as a duplicate-free list. -/
def sadd (s : List String) (x : String) : List String :=
  if x ∈ s then s else s ++ [x]

/-- Python `set |= xs`. -/
def saddAll (s : List String) (xs : List String) : List String := xs.foldl sadd s

/-- Python `set -= xs`. -/
def sdiffL (s : List String) (xs : List String) : List String :=
  s.filter (fun x => decide (x ∉ xs))

/-! ## Field Normalizer (`plotstyle_interface.normalize_prop`) -/

/-- `_as_implicit`: wrap a payload with the implicit-intent defaults
(`{value: payload, validator: undetermined, source: literal}`, in the key
order produced by `{PropKeys.VALUE: value, **INTENT_DEFAULTS[IMPLICIT]}`). -/
def asImplicit (v : Value) : Dict :=
  [("value", v), ("validator", .str "undetermined"), ("source", .str "literal")]

/-- Apply the canonical-shape defaults: `setdefault(validator, undetermined)`
then `setdefault(source, literal)` (the iteration order of
`INTENT_DEFAULTS[...]`). -/
def withSchemaDefaults (m : Dict) : Dict :=
  dsetdefault (dsetdefault m "validator" (.str "undetermined")) "source" (.str "literal")

/-- `normalize_prop`: convert a raw field entry into a canonical descriptor
dict.  An explicit-tagged payload that is not a mapping containing the
`value` key raises `ValueError` — uncaught by the per-field handlers of
`_dump_to_dict` (`normalize_prop` is called on line 61 of `plotstyle.py`,
outside both `try` blocks).  The likely-mistaken-shape `UserWarning` of the
implicit-dict branch does not change the returned descriptor and is not
modeled. -/
def normalizeProp (key : String) (rawProp : Value) : Except String Dict :=
  match rawProp with
  | .tagged .implicitI payload => .ok (asImplicit payload)
  | .tagged .explicitI payload =>
    match payload with
    | .dict m =>
      match dlookup m "value" with
      | some _ => .ok (withSchemaDefaults m)
      | none =>
        .error ("ValueError: Field '" ++ key ++ "' tagged explicit but missing payload key 'value'")
    | _ =>
      .error ("ValueError: Field '" ++ key ++ "' tagged explicit but missing payload key 'value'")
  | .dict m =>
    match dlookup m "value" with
    | some _ => .ok (withSchemaDefaults m)
    | none => .ok (asImplicit (.dict m))
  | v => .ok (asImplicit v)

/-! ## Reference lookup (`plotstyle_interface.fetch_value`) -/

/-- `fetch_value`: literal-sourced fields return their own payload; field-
sourced fields look the referenced key up in `dump_to | read_from` — the
Python dict-union in which `read_from`'s entry wins on a name clash.  An
absent reference raises `KeyError` (there is no dedicated MissingReference
exception in the source; `SourceFieldMissing` / `InvalidSourceType` cover
the other failure shapes). -/
def fetchValue (key : String) (prop : Dict) (dumpTo readFrom : Dict) :
    Except String (String × Value) :=
  match dlookup prop "source" with
  | none => .error "SourceFieldMissing"
  | some (.str "literal") =>
    match dlookup prop "value" with
    | some v => .ok (key, v)
    | none => .error "KeyError: 'value'"
  | some (.str "field") =>
    match dlookup prop "value" with
    | none => .error "KeyError: 'value'"
    | some (.str refKey) =>
      match dlookup (dunion dumpTo readFrom) refKey with
      | some v => .ok (refKey, v)
      | none => .error ("KeyError: '" ++ refKey ++ "'")
    | some _ => .error "KeyError: non-string reference key"
  | some _ => .error "InvalidSourceType"

/-! ## Validator registry (`plotstyle_validators.py`)

The engine-facing registry.  Validators whose behavior depends on external
subsystems (pathstr/filename: OS path rules; yaml: the file system;
fileformat: matplotlib's supported filetypes; color: matplotlib colors;
fontfamily: the font database; figsize: `eval`) are, per the spec, abstract
capabilities at the interface boundary; of these, the yaml validator is
modeled against the explicit file-system map below because chain-includes
need it, and figsize is embedded separately for the capability claim.  The
composite validators (dict/gridoptions/plotoptions), which re-enter the
engine through the `field_parser` callback with distinct dump/read scopes,
are outside the modeled registry. -/

/-- `int(str)`: optional surrounding whitespace, optional sign, digits. -/
def pyIntOfString (s : String) : Option Int :=
  let t := s.trim
  if t.startsWith "+" then ((t.drop 1).toNat?).map Int.ofNat else t.toInt?

/-- `int` validator `validate`: `isinstance(value, bool)` is rejected first;
then `int(value)` must not raise (ints and integral strings; float inputs
are outside the modeled value domain). -/
def intValidate (v : Value) : Bool :=
  match v with
  | .bool _ => false
  | .int _ => true
  | .str s => (pyIntOfString s).isSome
  | _ => false

/-- `int` validator `parse`. -/
def intParse (v : Value) : Except String Value :=
  match v with
  | .int n => .ok (.int n)
  | .str s =>
    match pyIntOfString s with
    | some n => .ok (.int n)
    | none => .error "ValueError: Expected real-valued numeric"
  | _ => .error "ValueError: Expected real-valued numeric"

/-- `bool` validator `parse` (`validate` is `isinstance(value, bool)`). -/
def boolParse (v : Value) : Except String Value :=
  match v with
  | .bool b => .ok (.bool b)
  | _ => .error "ValueError: Not a bool"

/-- `str` validator `validate`: a string, or a dict whose values are all
strings. -/
def strValidate (v : Value) : Bool :=
  match v with
  | .str _ => true
  | .dict m => m.all (fun kv => match kv.2 with | .str _ => true | _ => false)
  | _ => false

/-- `str` validator `parse`. -/
def strParse (v : Value) : Except String Value :=
  if strValidate v then .ok v else .error "ValueError: Expected string"

/-- `fontsize` validator `validate`.  `isinstance(value, (int, float))`
also matches Python bools (bool is an int subclass), for which `value > 0`
is the bool itself. -/
def fontsizeValidate (v : Value) : Bool :=
  match v with
  | .bool b => b
  | .int n => decide (0 < n)
  | .str s => ["xx-small", "x-small", "small", "medium", "large", "x-large", "xx-large"].contains s
  | .null => true
  | _ => false

/-- `fontsize` validator `parse`. -/
def fontsizeParse (v : Value) : Except String Value :=
  if fontsizeValidate v then .ok v else .error "ValueError: Not a valid fontsize"

/-- `linewidth` validator `validate` (`value >= 0` for numbers, bools
included; otherwise `value == None`). -/
def linewidthValidate (v : Value) : Bool :=
  match v with
  | .bool _ => true
  | .int n => decide (0 ≤ n)
  | .null => true
  | _ => false

/-- `linewidth` validator `parse`. -/
def linewidthParse (v : Value) : Except String Value :=
  if linewidthValidate v then .ok v else .error "ValueError: Not a valid linewidth"

/-- The reachable file system: a finite map from a path value to the
top-level mapping parsed from that document.  A path absent from the map
stands for every failure of `_resolve_yaml_path` / `_load_yaml` /
`YamlValidator` (file not found, not a `.yaml` file, unparsable, top level
not a mapping). -/
abbrev FileSys := AList Dict

/-- `yaml` validator `parse` (normpath of a path that validates against the
file system). -/
def yamlParse (fs : FileSys) (v : Value) : Except String Value :=
  match v with
  | .str s => if (dlookup fs s).isSome then .ok (.str s) else .error "ValueError: Invalid YAML path"
  | _ => .error "ValueError: Invalid YAML path"

/-- `VALIDATORS.get(name)` restricted to the modeled registry: the parse
capability for a registered name, `none` for an unknown one. -/
def VALIDATORS (fs : FileSys) (name : String) : Option (Value → Except String Value) :=
  match name with
  | "undetermined" => some (fun v => .ok v)
  | "int" => some intParse
  | "bool" => some boolParse
  | "str" => some strParse
  | "fontsize" => some fontsizeParse
  | "linewidth" => some linewidthParse
  | "yaml" => some (yamlParse fs)
  | _ => none

/-- `parse_prop`: look the validator up, fetch the raw value, parse it; any
failure inside (missing `validator` key, unknown or non-string validator id,
fetch failure, parse failure) is re-raised as `ParseError` with the key
name. -/
def parsePropV (fs : FileSys) (key : String) (prop : Dict) (dumpTo readFrom : Dict) :
    Except String Value :=
  let res : Except String Value :=
    match dlookup prop "validator" with
    | none => .error "KeyError: 'validator'"
    | some (.str vname) =>
      match VALIDATORS fs vname with
      | none => .error ("Unknown validator '" ++ vname ++ "'")
      | some pf =>
        match fetchValue key prop dumpTo readFrom with
        | .error e => .error e
        | .ok kv => pf kv.2
    | some _ => .error "Unknown validator"
  match res with
  | .ok v => .ok v
  | .error e => .error ("ParseError: Failed to parse key '" ++ key ++ "': " ++ e)

/-! ## Localization (`plotstyle_interface.apply_localization`) -/

/-- Rebuild a dict with every value passed through `f` (key set and order
preserved), as the `{k: resolve(v) for k, v in d.items()}` comprehensions
of `apply_localization` do. -/
def mapVals {α β : Type} (f : α → β) (m : AList α) : AList β :=
  m.map (fun kv => (kv.1, f kv.2))

mutual

/-- The recursive `resolve` closure of `apply_localization`: a mapping that
contains the active language as a key is replaced by that entry's value
(returned as-is, without a recursive call); any other mapping has its
values localized independently; lists are localized element-wise;
everything else passes through. -/
def localizeValue (lang : String) : Value → Value
  | .dict m =>
    match dlookup m lang with
    | some w => w
    | none => .dict (localizeEntries lang m)
  | .list xs => .list (localizeList lang xs)
  | v => v

/-- `resolve` mapped over the entries of a generic (non-localization)
mapping. -/
def localizeEntries (lang : String) : List (String × Value) → List (String × Value)
  | [] => []
  | (k, v) :: rest => (k, localizeValue lang v) :: localizeEntries lang rest

/-- `resolve` mapped over the elements of a list value. -/
def localizeList (lang : String) : List Value → List Value
  | [] => []
  | v :: rest => localizeValue lang v :: localizeList lang rest

end

/-- `apply_localization`: rebuild both the parameter scope and the affix
registry with every value localized. -/
def applyLocalization (params affixDict : Dict) (lang : String) : Dict × Dict :=
  (mapVals (localizeValue lang) params, mapVals (localizeValue lang) affixDict)

/-! ## Affixes (`plotstyle_interface`: `register_affixable`,
`unpack_affix_key`, `apply_affixes`) -/

/-- `PropSchema.format_key`: `"{key}__{affix}__"`. -/
def affixFormatKey (key affix : String) : String := key ++ "__" ++ affix ++ "__"

/-- Split a character list at the first occurrence of `"__"`. -/
def splitFirstDunder : List Char → Option (List Char × List Char)
  | [] => none
  | c :: cs =>
    match c, cs with
    | '_', '_' :: rest => some ([], rest)
    | _, _ =>
      match splitFirstDunder cs with
      | some pp => some (c :: pp.1, pp.2)
      | none => none

/-- Does the character list end in `"__"`? -/
def endsDunder (cs : List Char) : Bool :=
  match cs.reverse with
  | '_' :: '_' :: _ => true
  | _ => false

/-- `PropSchema.unpack_affix_key`: match against `"{key}__{affix}__"` (the
`parse` library compiles this to the anchored non-greedy pattern: the key is
everything before the first `"__"`, and the rest must be a nonempty affix
followed by the closing `"__"`). -/
def unpackAffixKey (s : String) : Except String (String × String) :=
  match splitFirstDunder s.toList with
  | some pp =>
    if pp.1 ≠ [] ∧ endsDunder pp.2 ∧ 3 ≤ pp.2.length then
      .ok (String.mk pp.1, String.mk (pp.2.dropLast.dropLast))
    else .error ("ValueError: Key '" ++ s ++ "' does not match format")
  | none => .error ("ValueError: Key '" ++ s ++ "' does not match format")

/-- A warning record: the name the warning reports (the field key, or
`key.affixtype`) together with the underlying error text. -/
abbrev Warn := String × String

/-- One iteration of `register_affixable`'s loop body for a single affix
type: if the descriptor carries a non-empty entry for it, parse that entry
with `parse_prop` and record the result under the synthetic affix key;
every failure in the attempt (non-mapping entry, missing `validator`, parse
failure) is caught, warned about and skipped. -/
def registerAffixStep (fs : FileSys) (key : String) (prop : Dict) (dumpTo readFrom : Dict)
    (acc : Dict × List Warn) (affixType : String) : Dict × List Warn :=
  match dlookup prop affixType with
  | none => acc
  | some (.dict []) => acc
  | some (.dict sub) =>
    match parsePropV fs key sub dumpTo readFrom with
    | .ok parsed => (dinsert acc.1 (affixFormatKey key affixType) parsed, acc.2)
    | .error e => (acc.1, acc.2 ++ [(key ++ "." ++ affixType, e)])
  | some _ =>
    (acc.1, acc.2 ++ [(key ++ "." ++ affixType,
      "ParseError: TypeError: affix descriptor is not subscriptable")])

/-- `register_affixable`: run the loop body for each of `prefix` then
`suffix` (the `PropSchema.AFFIX_KEYS` order). -/
def registerAffixable (fs : FileSys) (affixDict : Dict) (key : String) (prop : Dict)
    (dumpTo readFrom : Dict) (warns : List Warn) : Dict × List Warn :=
  ["prefix", "suffix"].foldl (registerAffixStep fs key prop dumpTo readFrom)
    (affixDict, warns)

/-- Python `+` on the modeled values: same-type sequence/string
concatenation, numeric addition (bools count as ints); anything else raises
`TypeError`. -/
def pyAdd (a b : Value) : Except String Value :=
  match a, b with
  | .str x, .str y => .ok (.str (x ++ y))
  | .list x, .list y => .ok (.list (x ++ y))
  | .tuple x, .tuple y => .ok (.tuple (x ++ y))
  | .int x, .int y => .ok (.int (x + y))
  | .bool x, .int y => .ok (.int ((if x then 1 else 0) + y))
  | .int x, .bool y => .ok (.int (x + (if y then 1 else 0)))
  | .bool x, .bool y => .ok (.int ((if x then 1 else 0) + (if y then 1 else 0)))
  | _, _ => .error "TypeError: unsupported operand types for +"

/-- `apply_affixes`: walk the affix registry in insertion order, replacing
`params[key]` by `params[key] + suffix_value` or `prefix_value +
params[key]`.  Nothing here is wrapped in a handler: an unparsable affix
key, a key absent from the scope (`KeyError`), an unknown affix type
(`ValueError`) or an incompatible concatenation (`TypeError`) propagates
out of the call. -/
def applyAffixes (params : Dict) (affixEntries : Dict) : Except String Dict :=
  match affixEntries with
  | [] => .ok params
  | (field, affixValue) :: rest =>
    match unpackAffixKey field with
    | .error e => .error e
    | .ok (key, affix) =>
      if affix = "suffix" then
        match dlookup params key with
        | none => .error ("KeyError: '" ++ key ++ "'")
        | some pv =>
          match pyAdd pv affixValue with
          | .error e => .error e
          | .ok nv => applyAffixes (dinsert params key nv) rest
      else if affix = "prefix" then
        match dlookup params key with
        | none => .error ("KeyError: '" ++ key ++ "'")
        | some pv =>
          match pyAdd affixValue pv with
          | .error e => .error e
          | .ok nv => applyAffixes (dinsert params key nv) rest
      else .error ("ValueError: Unknown affix type for key " ++ key)

/-! ## The figsize validator (`plotstyle_validators.FigsizeValidator`)

Embedded standalone (it is not part of the engine-facing registry above):
its `parse`/`sanitize` produce Python objects with no engine representation
(`eval` results — tuples or function objects), modeled by `FigsizeOut`.
Python `float` literals inside tuples and complex constants are outside the
modeled value domain. -/

/-- Python `float(str)` success (optional surrounding whitespace, sign,
digits with an optional point, an optional exponent, or inf/infinity/nan). -/
def pyFloatOk (s : String) : Bool :=
  let t := s.trim.toLower
  let t := if t.startsWith "+" ∨ t.startsWith "-" then t.drop 1 else t
  if t = "inf" ∨ t = "infinity" ∨ t = "nan" then true
  else
    let mantExp : String × Option String :=
      match t.splitOn "e" with
      | [m] => (m, none)
      | [m, e] => (m, some e)
      | _ => ("", some "")
    let mantOk : Bool :=
      match mantExp.1.splitOn "." with
      | [a] => 0 < a.length ∧ a.toList.all Char.isDigit
      | [a, b] => (0 < a.length ∨ 0 < b.length) ∧ a.toList.all Char.isDigit ∧ b.toList.all Char.isDigit
      | _ => false
    let expOk : Bool :=
      match mantExp.2 with
      | none => true
      | some e =>
        let e2 := if e.startsWith "+" ∨ e.startsWith "-" then e.drop 1 else e
        0 < e2.length ∧ e2.toList.all Char.isDigit
    mantOk ∧ expOk

/-- Tokens of the arithmetic expressions `_is_math_expr_safe` accepts. -/
inductive MathTok where
  | name (s : String)
  | num
  | plus
  | minus
  | star
  | dstar
  | slash
  | lparen
  | rparen
deriving DecidableEq

/-- Tokenizer for `_is_math_expr_safe`'s expression language (identifiers,
numeric literals, `+ - * / **` and parentheses; anything else —
corresponding to a rejected AST node or a syntax error — fails). -/
def tokenizeMath : Nat → List Char → Option (List MathTok)
  | 0, _ => none
  | _ + 1, [] => some []
  | fuel + 1, c :: cs =>
    if c = ' ' ∨ c = '\t' then tokenizeMath fuel cs
    else if c = '+' then (tokenizeMath fuel cs).map (.plus :: ·)
    else if c = '-' then (tokenizeMath fuel cs).map (.minus :: ·)
    else if c = '/' then (tokenizeMath fuel cs).map (.slash :: ·)
    else if c = '(' then (tokenizeMath fuel cs).map (.lparen :: ·)
    else if c = ')' then (tokenizeMath fuel cs).map (.rparen :: ·)
    else if c = '*' then
      match cs with
      | '*' :: cs2 => (tokenizeMath fuel cs2).map (.dstar :: ·)
      | _ => (tokenizeMath fuel cs).map (.star :: ·)
    else if c.isAlpha ∨ c = '_' then
      let sp := cs.span (fun ch => ch.isAlphanum ∨ ch = '_')
      (tokenizeMath fuel sp.2).map (.name (String.mk (c :: sp.1)) :: ·)
    else if c.isDigit ∨ c = '.' then
      let sp := cs.span (fun ch => ch.isDigit ∨ ch = '.')
      match sp.2 with
      | 'e' :: restE | 'E' :: restE =>
        let restF := match restE with
          | '+' :: r => r
          | '-' :: r => r
          | r => r
        let sp2 := restF.span Char.isDigit
        if pyFloatOk (String.mk (c :: sp.1 ++ ['e'] ++ sp2.1)) ∧ sp2.1 ≠ [] then
          (tokenizeMath fuel sp2.2).map (.num :: ·)
        else none
      | _ =>
        if pyFloatOk (String.mk (c :: sp.1)) then (tokenizeMath fuel sp.2).map (.num :: ·)
        else none
    else none

/-- Is the token one of the accepted binary operators
(`Add/Sub/Mult/Div/Pow`)? -/
def isMathBinop (t : MathTok) : Bool :=
  match t with
  | .plus | .minus | .star | .dstar | .slash => true
  | _ => false

mutual

/-- Acceptance of one expression: a unary-minus chain applied to an atom,
optionally continued by a binary operator (precedence is irrelevant for
acceptance).  Returns the unconsumed tokens. -/
def parseMathE (allowed : List String) : Nat → List MathTok → Option (List MathTok)
  | 0, _ => none
  | fuel + 1, toks =>
    match parseMathU allowed fuel toks with
    | none => none
    | some rest =>
      match rest with
      | t :: more => if isMathBinop t then parseMathE allowed fuel more else some rest
      | [] => some []

/-- A unary expression: `-` chains (`USub` is accepted, unary `+` is not),
a literal, an allowed name, or a parenthesized expression. -/
def parseMathU (allowed : List String) : Nat → List MathTok → Option (List MathTok)
  | 0, _ => none
  | fuel + 1, toks =>
    match toks with
    | .minus :: rest => parseMathU allowed fuel rest
    | .num :: rest => some rest
    | .name s :: rest => if allowed.contains s then some rest else none
    | .lparen :: rest =>
      match parseMathE allowed fuel rest with
      | some (.rparen :: more) => some more
      | _ => none
    | _ => none

end

/-- `_is_math_expr_safe`: the expression must parse and use only names from
`allowed_names`, numeric constants, `+ - * / **`, unary minus and
parentheses. -/
def isMathExprSafe (expr : String) (allowed : List String) : Bool :=
  match tokenizeMath (expr.length + 1) expr.toList with
  | none => false
  | some toks =>
    match parseMathE allowed (2 * toks.length + 2) toks with
    | some [] => true
    | _ => false

/-- `value[a:b]` on a Python string (character indices). -/
def strSlice (s : String) (a b : Nat) : String := String.mk ((s.toList.drop a).take (b - a))

/-- `value.count(c)`. -/
def strCount (s : String) (c : Char) : Nat := (s.toList.filter (· = c)).length

/-- `sub in s` (substring containment). -/
def containsSub (s sub : String) : Bool := 2 ≤ (s.splitOn sub).length

/-- `_unpack_tuple_str`: a string whose first and last characters are
parentheses, containing exactly two comma-separated parts (whitespace
stripped); a non-string raises `ValueError`, an empty string `IndexError`
(`value[0]`). -/
def unpackTupleStr (v : Value) : Except String (List String) :=
  match v with
  | .str s =>
    if s.length = 0 then .error "IndexError: string index out of range"
    else if s.startsWith "(" ∧ s.endsWith ")" then
      let parts := ((strSlice s 1 (s.length - 1)).splitOn ",").map String.trim
      if parts.length = 2 then .ok parts
      else .error "ValueError: The expression must return a tuple of length 2"
    else .error "NotTupleFigsize: The expression must return a tuple of length 2"
  | _ => .error "ValueError: Cannot parse non-string value"

/-- `_check_lambda_str`: the (stripped) string must start with `lambda`,
with no further occurrence of `lambda` in `value[6:-1]`, exactly one colon;
the parameter list is `value[7:colon]` comma-split and stripped; the body
must unpack as a 2-tuple string each of whose components is a safe
arithmetic expression over the parameters. -/
def checkLambdaStr (v : Value) : Except String Unit :=
  match v with
  | .str s =>
    if (s.trim).startsWith "lambda" then
      if containsSub (strSlice s 6 (s.length - 1)).toLower "lambda" then
        .error "RejectedExpression: lambda may appear only at the beginning"
      else if strCount s ':' ≠ 1 then
        .error "ValueError: Lambda expressions must contain exactly one colon"
      else
        match s.toList.findIdx? (· = ':') with
        | none => .error "ValueError: Lambda expressions must contain exactly one colon"
        | some idx =>
          let params := (((strSlice s 7 idx).trim).splitOn ",").map String.trim
          match unpackTupleStr (.str ((strSlice s (idx + 1) s.length).trim)) with
          | .error e => .error e
          | .ok dims =>
            if dims.all (fun d => isMathExprSafe d params) then .ok ()
            else .error "ValueError: Unsafe expression in dimension"
    else .error "NotLambdaFigsize: expression does not start with lambda"
  | _ => .error "NotLambdaFigsize: expression does not start with lambda"

/-- `_check_numeric_tuple_from_str`: every component of the unpacked tuple
string must satisfy `float(...)`; every failure inside is re-raised as
`ValueError`. -/
def checkNumericTupleFromStr (v : Value) : Except String Unit :=
  match unpackTupleStr v with
  | .error _ => .error "ValueError: The expression must return a tuple of length 2"
  | .ok parts =>
    if parts.all pyFloatOk then .ok ()
    else .error "ValueError: The expression must return a tuple of length 2"

/-- The per-dimension loop of `_check_literal_tuple`: each entry must be a
number (`isinstance(dim, (int, float))` — Python bools included) and
strictly positive. -/
def checkLiteralDims : List Value → Except String Unit
  | [] => .ok ()
  | d :: rest =>
    match d with
    | .int n => if n ≤ 0 then .error "ValueError: All dimensions must be greater than zero" else checkLiteralDims rest
    | .bool b => if b then checkLiteralDims rest else .error "ValueError: All dimensions must be greater than zero"
    | _ => .error "ValueError: Tuple must have a number on all positions"

/-- `_check_literal_tuple`: an actual 2-tuple of positive numbers. -/
def checkLiteralTuple (v : Value) : Except String Unit :=
  match v with
  | .tuple xs =>
    if xs.length ≠ 2 then .error "ValueError: Tuple must have length 2"
    else checkLiteralDims xs
  | _ => .error "ValueError: Not a tuple"

/-- Did the check succeed (Python: the `try` block did not raise)? -/
def exceptOk (e : Except String Unit) : Bool :=
  match e with
  | .ok _ => true
  | .error _ => false

/-- `FigsizeValidator.validate`: try the lambda-string check, then the
numeric-tuple-string check, then the literal-tuple check, each failure
silently passed over. -/
def figsizeValidate (v : Value) : Bool :=
  exceptOk (checkLambdaStr v) ∨ exceptOk (checkNumericTupleFromStr v) ∨
    exceptOk (checkLiteralTuple v)

/-- What `parse`/`sanitize` can produce: the unchanged tuple value, the
opaque result of `eval` on a validated string (a tuple or a function
object), or Python `None` (sanitize's invalid branch and parse's implicit
fall-through). -/
inductive FigsizeOut where
  | val (v : Value)
  | evaled (source : String)
  | noneOut

/-- `_safe_eval`: `eval(value, {"__builtins__": {}}, {})`.  Evaluating a
validated *string* yields a Python object modeled opaquely; `eval` on any
non-string raises `TypeError`. -/
def figsizeSafeEval (v : Value) : Except String FigsizeOut :=
  match v with
  | .str s => .ok (.evaled s)
  | _ => .error "TypeError: eval() arg 1 must be a string, bytes or code object"

/-- `FigsizeValidator.parse`: reject when `validate` fails; `eval` strings;
return tuples unchanged; fall through to `None` otherwise. -/
def figsizeParse (v : Value) : Except String FigsizeOut :=
  if ¬ figsizeValidate v then .error "ValueError: figsize in unexpected format"
  else
    match v with
    | .str s => figsizeSafeEval (.str s)
    | .tuple xs => .ok (.val (.tuple xs))
    | _ => .ok .noneOut

/-- `FigsizeValidator.sanitize`: `None` when `validate` fails, otherwise
`_safe_eval(value)` — with no branch for tuple input, unlike `parse`. -/
def figsizeSanitize (v : Value) : Except String FigsizeOut :=
  if ¬ figsizeValidate v then .ok .noneOut
  else figsizeSafeEval v

/-! ## ParseContext and keep/delete inference (`plotstyle._ParseContext`,
`plotstyle._resolve_marked_for_delete`) -/

/-- `_ParseContext`: the mutable per-resolution state.  Sets are modeled as
duplicate-free lists; `fileStack` holds the raw path values appended by the
chain-include loop. -/
structure Ctx where
  explicitlyKept : List String
  explicitlyDeleted : List String
  markedForDelete : List String
  fieldProps : AList Dict
  affix : Dict
  fileStack : List Value

/-- The context `_ParseContext()` starts from (also the shared
default-argument context of `PlotStyle.__init__`, fresh before the first
construction). -/
def emptyCtx : Ctx := ⟨[], [], [], [], [], []⟩

/-- The keep-override block at the end of the per-field loop: when the
descriptor carries `keep`, the bool validator vets it; `True` records the
key as explicitly kept, `False` as explicitly deleted, anything malformed is
ignored. -/
def keepBlock (ctx : Ctx) (key : String) (prop : Dict) : Ctx :=
  match dlookup prop "keep" with
  | some (.bool true) => {ctx with explicitlyKept := sadd ctx.explicitlyKept key}
  | some (.bool false) => {ctx with explicitlyDeleted := sadd ctx.explicitlyDeleted key}
  | _ => ctx

/-- `PropSchema.default_keep_for_source`:
`SOURCE_DEFAULT_KEEP.get(source, _KEEP_DEFAULT_CLASS_LEVEL)` with
`{literal: True, field: False}` and class default `True`. -/
def defaultKeepForSource (source : Option Value) : Bool :=
  match source with
  | some (.str "literal") => true
  | some (.str "field") => false
  | _ => true

/-- `PropSchema.default_keep()` (`_KEEP_DEFAULT_CLASS_LEVEL`). -/
def schemaDefaultKeep : Bool := true

mutual

/-- Python hashability of the modeled values: lists and dicts are
unhashable, tuples are hashable when their elements are, everything else
(including `_TaggedValue` objects, which use identity hashing) is
hashable. -/
def pyHashable : Value → Bool
  | .list _ => false
  | .dict _ => false
  | .tuple xs => pyHashableAll xs
  | .tagged _ _ => true
  | .null => true
  | .bool _ => true
  | .int _ => true
  | .str _ => true

/-- Hashability of every element of a tuple. -/
def pyHashableAll : List Value → Bool
  | [] => true
  | v :: rest => pyHashable v && pyHashableAll rest

end

/-- The first loop of `_resolve_marked_for_delete`, building the
`referenced` set: the `value` payload (`prop.get(VALUE)`, `None` when
absent) of every descriptor whose `source` is `field`.  `set.add` of an
unhashable value raises `TypeError`, aborting the resolution; the Python
set is otherwise modeled as a list in first-seen order that may repeat an
element (`sadd` in the consumer keeps membership identical). -/
def buildReferenced : AList Dict → Except String (List Value)
  | [] => .ok []
  | kp :: rest =>
    match dlookup kp.2 "source" with
    | some (.str "field") =>
      let t := match dlookup kp.2 "value" with | some v => v | none => Value.null
      if pyHashable t then (buildReferenced rest).map (fun l => t :: l)
      else .error "TypeError: unhashable type"
    | _ => buildReferenced rest

/-- One step of the inference loop of `_resolve_marked_for_delete`: the
target contributes to the inferred deletion set according to the *target's
own* descriptor — absent descriptor: `default_keep()`; present:
`default_keep_for_source` of the target's `source`.  A non-string target
never matches a `field_props` key, so it takes the absent-descriptor branch
and (class default `True`) is not marked. -/
def inferStep (fieldProps : AList Dict) (acc : List String) (fv : Value) : List String :=
  match fv with
  | .str s =>
    match dlookup fieldProps s with
    | none => if ¬ schemaDefaultKeep then sadd acc s else acc
    | some prop =>
      if ¬ defaultKeepForSource (dlookup prop "source") then sadd acc s else acc
  | _ => acc

/-- The inference loop of `_resolve_marked_for_delete` over an
already-built referenced list. -/
def inferLoop (fieldProps : AList Dict) (referenced : List Value) : List String :=
  referenced.foldl (inferStep fieldProps) []

/-- Whether the inference loop's step marks a (string) target for deletion:
its own descriptor is present and its `source` kind defaults to delete, or
its descriptor is absent and the class default is delete. -/
def targetDefaultDelete (fp : AList Dict) (s : String) : Bool :=
  match dlookup fp s with
  | none => !schemaDefaultKeep
  | some prop => !defaultKeepForSource (dlookup prop "source")


/-- `_resolve_marked_for_delete`: build the referenced set (which can raise
on an unhashable target), run the inference loop, then
`marked |= explicitly_deleted` and `marked -= explicitly_kept`. -/
def resolveMarkedForDelete (ctx : Ctx) : Except String Ctx :=
  match buildReferenced ctx.fieldProps with
  | .error e => .error e
  | .ok referenced =>
    .ok {ctx with
      markedForDelete :=
        sdiffL (saddAll (inferLoop ctx.fieldProps referenced) ctx.explicitlyDeleted)
          ctx.explicitlyKept}

/-! ## Reference & Chain Resolver (`plotstyle._yaml_parse_from_dict` /
`_dump_to_dict`)

At every engine call site `read_from` aliases `dump_to` (the defaults of
`_yaml_parse_from_dict`, the chain-include recursion, and
`_yaml_parse_list` all pass the same dict), so the loop below carries one
`scope`, passing it for both arguments of `fetch_value` / `parse_prop`.
In Python an exception raised mid-loop leaves all mutations made so far in
place; accordingly every branch here returns the context, scope and
warnings accumulated up to the failure point, with `err = some _` standing
for the propagating exception.  `fuel` bounds the chain-include recursion
depth; in CPython the corresponding `RecursionError` is an `Exception`,
caught by the chain-include handler like any other failure. -/

/-- Result of one `_dump_to_dict` run. -/
structure DumpResult where
  err : Option String
  ctx : Ctx
  scope : Dict
  warns : List Warn

/-- The type of the recursive `_dump_to_dict` closure as the chain-include
loop sees it: handle, context-so-far, scope-so-far, warnings-so-far. -/
abbrev DumpRec := Dict → Ctx → Dict → List Warn → DumpResult

/-- The `for path in paths` loop of the chain-include branch, parameterized
by the recursive `_dump_to_dict` closure: append the path to `fileStack`,
resolve and load the document, merge it recursively into the current scope
with `read_from = dump_to`, pop `fileStack`.  Any failure — unresolvable
path, non-string path, a normalization error inside the included document,
recursion exhaustion — escapes as the error component *after* the append,
so the pop is skipped for the failing path. -/
def chainLoop (fs : FileSys) (dump : DumpRec) (paths : List Value) (ctx : Ctx)
    (scope : Dict) (warns : List Warn) : Option String × Ctx × Dict × List Warn :=
  match paths with
  | [] => (none, ctx, scope, warns)
  | p :: rest =>
    let ctx1 : Ctx := {ctx with fileStack := ctx.fileStack ++ [p]}
    match p with
    | .str s =>
      match dlookup fs s with
      | none => (some ("FileNotFoundError: YAML file '" ++ s ++ "' not found"), ctx1, scope, warns)
      | some included =>
        let r := dump included ctx1 scope warns
        match r.err with
        | some e => (some e, r.ctx, r.scope, r.warns)
        | none =>
          let ctx2 : Ctx := {r.ctx with fileStack := r.ctx.fileStack.dropLast}
          chainLoop fs dump rest ctx2 r.scope r.warns
    | _ => (some "TypeError: expected str, bytes or os.PathLike object", ctx1, scope, warns)

/-- The per-field loop of `_dump_to_dict`, parameterized by the recursive
closure used for chain-includes.  For each field: normalize (uncaught — a
failure aborts the whole run), record the descriptor in `field_props`, then
either run the chain-include branch (validator `yaml`) or parse-and-store;
both branches catch their own failures, warn with the field key, and
`continue` (skipping the keep block).  On success the keep block records an
explicit keep/delete override. -/
def dumpFields (fs : FileSys) (dump : DumpRec) (fields : List (String × Value)) (ctx : Ctx)
    (scope : Dict) (warns : List Warn) : DumpResult :=
  match fields with
  | [] => ⟨none, ctx, scope, warns⟩
  | (key, rawProp) :: rest =>
    match normalizeProp key rawProp with
    | .error e => ⟨some e, ctx, scope, warns⟩
    | .ok prop =>
      let ctx1 : Ctx := {ctx with fieldProps := dinsert ctx.fieldProps key prop}
      match dlookup prop "validator" with
      | some (.str "yaml") =>
        match fetchValue key prop scope scope with
        | .error e => dumpFields fs dump rest ctx1 scope (warns ++ [(key, e)])
        | .ok kv =>
          let paths : List Value := match kv.2 with | .list xs => xs | v => [v]
          match chainLoop fs dump paths ctx1 scope warns with
          | (some e, ctx2, scope2, warns2) =>
            dumpFields fs dump rest ctx2 scope2 (warns2 ++ [(key, e)])
          | (none, ctx2, scope2, warns2) =>
            dumpFields fs dump rest (keepBlock ctx2 key prop) scope2 warns2
      | _ =>
        match parsePropV fs key prop scope scope with
        | .error e => dumpFields fs dump rest ctx1 scope (warns ++ [(key, e)])
        | .ok parsed =>
          let scope2 := dinsert scope key parsed
          let ra := registerAffixable fs ctx1.affix key prop scope2 scope2 warns
          let ctx2 := keepBlock {ctx1 with affix := ra.1} key prop
          dumpFields fs dump rest ctx2 scope2 ra.2

/-- `_dump_to_dict` itself: strip the reserved `configs` key
(`ignore_configs`), then run the per-field loop, tying the recursive knot
for chain-includes.  `fuel` bounds the include-recursion depth; exhaustion
stands for CPython's `RecursionError`, itself an `Exception` caught by the
chain-include handler like any other failure. -/
def dumpGo (fs : FileSys) : Nat → DumpRec
  | 0 => fun _ ctx scope warns =>
      ⟨some "RecursionError: maximum recursion depth exceeded", ctx, scope, warns⟩
  | fuel + 1 => fun handle ctx scope warns =>
      dumpFields fs (dumpGo fs fuel) (derase handle "configs") ctx scope warns

/-- The stack-extension invariant for a recursive dump closure: it only
ever appends to `fileStack`. -/
def StackExtends (dump : DumpRec) : Prop :=
  ∀ h c s w, ∃ l, (dump h c s w).ctx.fileStack = c.fileStack ++ l

/-- Does an option hold the reserved chain-include validator id? -/
def isYamlTag : Option Value → Bool
  | some (.str "yaml") => true
  | _ => false

/-- Context-congruence of a recursive dump closure: the error, scope and
warning outputs do not depend on the incoming context, and the context's
affix registry and field_props are updated by a write sequence shared
between any two incoming contexts (the loops only ever write to the
context, so the writes are determined by the document, scope and file
system alone). -/
def DumpCongr (dump : DumpRec) : Prop :=
  ∀ h s w c c',
    (dump h c s w).err = (dump h c' s w).err ∧
    (dump h c s w).scope = (dump h c' s w).scope ∧
    (dump h c s w).warns = (dump h c' s w).warns ∧
    ∃ aops fops,
      (dump h c s w).ctx.affix = dinsertAll c.affix aops ∧
      (dump h c' s w).ctx.affix = dinsertAll c'.affix aops ∧
      (dump h c s w).ctx.fieldProps = dinsertAll c.fieldProps fops ∧
      (dump h c' s w).ctx.fieldProps = dinsertAll c'.fieldProps fops


/-! ## `PlotStyle.__init__` (yaml_dict entry point) -/

/-- `PlotStyle.__init__` called with `yaml_dict`: parse the document into a
fresh scope, run keep/delete inference, localize scope and affix registry,
apply affixes, then — only when `keep_all_fields` is false — delete the
marked fields.  That last step is `self._delete_marked_fields()`, which
omits the `ctx` argument `_delete_marked_fields(self, ctx)` requires, so it
raises `TypeError` instead of deleting.  The result carries the returned
mapping (or propagated exception), the context object (mutated in place in
the source, and shared between calls through the mutable default argument),
and the warnings printed along the way. -/
def plotStyleInit (fuel : Nat) (fs : FileSys) (yamlDict : Dict) (language : String)
    (keepAllFields : Bool) (ctx : Ctx) : Except String Dict × Ctx × List Warn :=
  let r := dumpGo fs fuel yamlDict ctx [] []
  match r.err with
  | some e => (.error e, r.ctx, r.warns)
  | none =>
    match resolveMarkedForDelete r.ctx with
    | .error e => (.error e, r.ctx, r.warns)
    | .ok ctx1 =>
      let la := applyLocalization r.scope ctx1.affix language
      let ctx2 : Ctx := {ctx1 with affix := la.2}
      match applyAffixes la.1 la.2 with
      | .error e => (.error e, ctx2, r.warns)
      | .ok scope2 =>
        if keepAllFields then (.ok scope2, ctx2, r.warns)
        else
          (.error "TypeError: _delete_marked_fields() missing 1 required positional argument: 'ctx'",
           ctx2, r.warns)

/-! ## Concrete documents used by the claim theorems -/

/-- The spec's reference-resolution example:
`base: {value: 10, validator: int}`,
`doubled: {value: base, source: field, validator: int}`. -/
def refExampleDoc : Dict :=
  [("base", .dict [("value", .int 10), ("validator", .str "int")]),
   ("doubled", .dict [("value", .str "base"), ("source", .str "field"), ("validator", .str "int")])]

/-- A document whose middle field is explicit-tagged but lacks the `value`
payload key. -/
def missingValueDoc : Dict :=
  [("a", .int 1),
   ("b", .tagged .explicitI (.dict [("source", .str "literal")])),
   ("c", .int 2)]

/-- A document with one unregistered-validator field between two good
fields. -/
def badValidatorDoc : Dict :=
  [("x", .int 5),
   ("bad", .dict [("value", .int 3), ("validator", .str "nope")]),
   ("y", .str "hi")]

/-- A document whose field `bad` fails to parse (unknown validator) while
referencing `t`, which is itself field-sourced (referencing `u`). -/
def failedRefDoc : Dict :=
  [("u", .int 7),
   ("t", .dict [("value", .str "u"), ("source", .str "field"), ("validator", .str "undetermined")]),
   ("bad", .dict [("value", .str "t"), ("source", .str "field"), ("validator", .str "nope")])]

/-- A suffix decoration whose parsed value (a list) cannot concatenate with
the field's string value. -/
def affixMismatchDoc : Dict :=
  [("name", .dict [("value", .str "Report"),
     ("suffix", .dict [("value", .list [.int 1]), ("validator", .str "undetermined"),
       ("source", .str "literal")])])]

/-- The spec's affix example with the descriptor keys `parse_prop`
requires. -/
def affixOkDoc : Dict :=
  [("name", .dict [("value", .str "Report"),
     ("suffix", .dict [("value", .str "_v2"), ("validator", .str "undetermined"),
       ("source", .str "literal")])])]

/-- A suffix descriptor missing its `source` key, so its registration
fails inside `parse_prop`. -/
def affixWarnDoc : Dict :=
  [("name", .dict [("value", .str "Report"),
     ("suffix", .dict [("value", .str "_v2"), ("validator", .str "undetermined")])])]

/-- A chain-include of a path absent from the file system. -/
def missingIncludeDoc : Dict :=
  [("inc", .dict [("value", .str "missing.yaml"), ("validator", .str "yaml")])]

/-- A one-document file system and an includer that resolves against it. -/
def subFileSys : FileSys := [("sub.yaml", [("footer", .str "x")])]

/-- The includer merging `sub.yaml`. -/
def okIncludeDoc : Dict :=
  [("inc", .dict [("value", .str "sub.yaml"), ("validator", .str "yaml")])]

/-- The normalized shape of a field-sourced reference to key `k`. -/
def refToK : Dict := [("value", .str "k"), ("source", .str "field")]

/-- The spec's localization example value `{en: "Hello", pt: "Olá"}`. -/
def helloTable : Value := .dict [("en", .str "Hello"), ("pt", .str "Ola")]

/-- The context state after `refExampleDoc`'s fields have been normalized
and recorded (explicit sets untouched), as `_resolve_marked_for_delete`
receives it. -/
def refExampleCtx : Ctx :=
  ⟨[], [], [],
   [("base", [("value", .int 10), ("validator", .str "int"), ("source", .str "literal")]),
    ("doubled", [("value", .str "base"), ("source", .str "field"), ("validator", .str "int")])],
   [], []⟩

/-! # Theorems -/

/-! ### Shared association-list lemmas -/

theorem dlookup_dinsert {α : Type} (m : AList α) (k q : String) (v : α) :
    dlookup (dinsert m k v) q = if k = q then some v else dlookup m q := by
  induction m with
  | nil => by_cases h : k = q <;> simp [dinsert, dlookup, h]
  | cons kv rest ih =>
    obtain ⟨k2, v2⟩ := kv
    by_cases h1 : k2 = k
    · by_cases h2 : k = q <;> simp [dinsert, dlookup, h1, h2]
    · by_cases h2 : k2 = q
      · have h3 : ¬ k = q := fun he => h1 (h2.trans he.symm)
        have h4 : ¬ q = k := fun he => h3 he.symm
        simp [dinsert, dlookup, h1, h2, h3, h4]
      · simp [dinsert, dlookup, h1, h2, ih]

theorem dlookup_eq_none_of_not_mem {α : Type} (m : AList α) (k : String)
    (h : k ∉ dkeys m) : dlookup m k = none := by
  induction m with
  | nil => rfl
  | cons kv rest ih =>
    obtain ⟨k2, v2⟩ := kv
    have hcons : dkeys ((k2, v2) :: rest) = k2 :: dkeys rest := rfl
    rw [hcons] at h
    have h1 : ¬ (k2 = k) := fun he => h (he ▸ List.mem_cons_self k2 (dkeys rest))
    have h2 : k ∉ dkeys rest := fun hm => h (List.mem_cons_of_mem _ hm)
    simp [dlookup, h1, ih h2]

theorem dlookup_dinsertAll_nodup {α : Type} (b a : AList α) (k : String)
    (hnd : (dkeys b).Nodup) :
    dlookup (dinsertAll a b) k =
      match dlookup b k with
      | some v => some v
      | none => dlookup a k := by
  induction b generalizing a with
  | nil => simp [dinsertAll, dlookup]
  | cons kv rest ih =>
    obtain ⟨k2, v2⟩ := kv
    simp only [dkeys, List.map_cons, List.nodup_cons] at hnd
    have step : dinsertAll a ((k2, v2) :: rest) = dinsertAll (dinsert a k2 v2) rest := rfl
    rw [step, ih _ hnd.2]
    by_cases h : k2 = k
    · subst h
      have : dlookup rest k2 = none :=
        dlookup_eq_none_of_not_mem rest k2 (by simpa [dkeys] using hnd.1)
      simp [dlookup, this, dlookup_dinsert]
    · simp [dlookup, h, dlookup_dinsert]

/-- C3 amended — a `FieldRef` field's raw value is looked up in
`dump_to | read_from`, where the *read* scope's entry wins on a name clash
(Python dict-union: right operand wins), the target scope being consulted
only for keys absent from the read scope; a key absent from both raises the
lookup `KeyError` (the failure the spec calls `MissingReference`). -/
theorem fetchPrecedenceAmended :
    ∀ (dumpTo readFrom : Dict) (key refKey : String) (prop : Dict),
      dlookup prop "source" = some (.str "field") →
      dlookup prop "value" = some (.str refKey) →
      (dkeys readFrom).Nodup →
      fetchValue key prop dumpTo readFrom =
        (match dlookup readFrom refKey with
         | some v => .ok (refKey, v)
         | none =>
           match dlookup dumpTo refKey with
           | some v => .ok (refKey, v)
           | none => .error ("KeyError: '" ++ refKey ++ "'")) := by
  intro dumpTo readFrom key refKey prop hs hv hnd
  unfold fetchValue
  rw [hs, hv]
  simp only [dunion, dlookup_dinsertAll_nodup readFrom dumpTo refKey hnd]
  cases dlookup readFrom refKey <;> cases dlookup dumpTo refKey <;> rfl

/-- C3 witness — the amended lookup rule at a concrete clash: the read
scope's value 2 is returned. -/
theorem fetchPrecedenceAmendedWitness :
    fetchValue "d" refToK [("k", .int 1)] [("k", .int 2)] = .ok ("k", .int 2) :=
  fetchPrecedenceAmended [("k", .int 1)] [("k", .int 2)] "d" "k" refToK rfl rfl (by simp [dkeys])

theorem wlast_foldl {α : Type} (k : String) (ops : AList α) :
    ∀ acc, ops.foldl (fun acc kv => if kv.1 = k then some kv.2 else acc) acc =
      match wlast ops k with
      | some v => some v
      | none => acc := by
  induction ops with
  | nil => intro acc; simp [wlast]
  | cons kv rest ih =>
    intro acc
    rw [List.foldl_cons, ih]
    have hw : wlast (kv :: rest) k =
        rest.foldl (fun acc kv => if kv.1 = k then some kv.2 else acc)
          (if kv.1 = k then some kv.2 else none) := rfl
    rw [hw, ih]
    rcases wlast rest k with _ | v <;> by_cases h : kv.1 = k <;> simp [h]

theorem wlast_cons {α : Type} (kv : String × α) (ops : AList α) (k : String) :
    wlast (kv :: ops) k =
      match wlast ops k with
      | some v => some v
      | none => if kv.1 = k then some kv.2 else none := by
  have hw : wlast (kv :: ops) k =
      ops.foldl (fun acc kv => if kv.1 = k then some kv.2 else acc)
        (if kv.1 = k then some kv.2 else none) := rfl
  rw [hw, wlast_foldl]

theorem dlookup_dinsertAll {α : Type} (ops : AList α) :
    ∀ (m : AList α) (k : String),
      dlookup (dinsertAll m ops) k =
        match wlast ops k with
        | some v => some v
        | none => dlookup m k := by
  induction ops with
  | nil => intro m k; simp [dinsertAll, wlast]
  | cons kv rest ih =>
    intro m k
    have hstep : dinsertAll m (kv :: rest) = dinsertAll (dinsert m kv.1 kv.2) rest := rfl
    rw [hstep, ih, wlast_cons, dlookup_dinsert]
    rcases wlast rest k with _ | v <;> by_cases h : kv.1 = k <;> simp [h]

theorem mem_dkeys_iff_isSome {α : Type} (m : AList α) (k : String) :
    k ∈ dkeys m ↔ (dlookup m k).isSome := by
  induction m with
  | nil => simp [dkeys, dlookup]
  | cons kv rest ih =>
    obtain ⟨k2, v2⟩ := kv
    have hck : dkeys ((k2, v2) :: rest) = k2 :: dkeys rest := rfl
    have hdl : dlookup ((k2, v2) :: rest) k =
        if k2 = k then some v2 else dlookup rest k := rfl
    rw [hck, hdl, List.mem_cons]
    by_cases h : k2 = k
    · subst h
      simp
    · have h2 : ¬ k = k2 := fun he => h he.symm
      rw [if_neg h]
      constructor
      · rintro (he | hm)
        · exact absurd he h2
        · exact ih.mp hm
      · intro hs
        exact Or.inr (ih.mpr hs)

theorem dkeys_dinsert {α : Type} (m : AList α) (k : String) (v : α) :
    dkeys (dinsert m k v) = if k ∈ dkeys m then dkeys m else dkeys m ++ [k] := by
  induction m with
  | nil => simp [dinsert, dkeys]
  | cons kv rest ih =>
    obtain ⟨k2, v2⟩ := kv
    have hstep : dinsert ((k2, v2) :: rest) k v =
        if k2 = k then (k, v) :: rest else (k2, v2) :: dinsert rest k v := rfl
    have hck : dkeys ((k2, v2) :: rest) = k2 :: dkeys rest := rfl
    by_cases h : k2 = k
    · subst h
      rw [hstep, if_pos rfl, hck]
      have h1 : dkeys ((k2, v) :: rest) = k2 :: dkeys rest := rfl
      rw [h1, if_pos (List.mem_cons_self _ _)]
    · have h2 : ¬ k = k2 := fun he => h he.symm
      rw [hstep, if_neg h, hck]
      have h1 : dkeys ((k2, v2) :: dinsert rest k v) = k2 :: dkeys (dinsert rest k v) := rfl
      rw [h1, ih]
      by_cases hm : k ∈ dkeys rest
      · rw [if_pos hm, if_pos (List.mem_cons_of_mem _ hm)]
      · have hnotin : k ∉ k2 :: dkeys rest := by
          rw [List.mem_cons]
          rintro (he | hmm)
          · exact h2 he
          · exact hm hmm
        rw [if_neg hm, if_neg hnotin]
        rfl

theorem nodup_dkeys_dinsert {α : Type} (m : AList α) (k : String) (v : α)
    (h : (dkeys m).Nodup) : (dkeys (dinsert m k v)).Nodup := by
  rw [dkeys_dinsert]
  by_cases hm : k ∈ dkeys m
  · simpa [hm] using h
  · rw [if_neg hm, List.nodup_append]
    refine ⟨h, List.nodup_singleton _, ?_⟩
    intro a ha hb
    rw [List.mem_singleton] at hb
    subst hb
    exact hm ha

theorem nodup_dkeys_dinsertAll {α : Type} (ops : AList α) :
    ∀ (m : AList α), (dkeys m).Nodup → (dkeys (dinsertAll m ops)).Nodup := by
  induction ops with
  | nil => intro m h; exact h
  | cons kv rest ih =>
    intro m h
    exact ih (dinsert m kv.1 kv.2) (nodup_dkeys_dinsert m kv.1 kv.2 h)

theorem dkeys_dinsertAll_congr {α : Type} (ops : AList α) :
    ∀ (m1 m2 : AList α), dkeys m1 = dkeys m2 →
      dkeys (dinsertAll m1 ops) = dkeys (dinsertAll m2 ops) := by
  induction ops with
  | nil => intro m1 m2 h; exact h
  | cons kv rest ih =>
    intro m1 m2 h
    refine ih (dinsert m1 kv.1 kv.2) (dinsert m2 kv.1 kv.2) ?_
    rw [dkeys_dinsert, dkeys_dinsert, h]

theorem dkeys_dinsertAll_of_sub {α : Type} (ops : AList α) :
    ∀ (m : AList α), (∀ kv ∈ ops, kv.1 ∈ dkeys m) →
      dkeys (dinsertAll m ops) = dkeys m := by
  induction ops with
  | nil => intro m _; rfl
  | cons kv rest ih =>
    intro m h
    have hk : kv.1 ∈ dkeys m := h kv (List.mem_cons_self _ _)
    have hkeys : dkeys (dinsert m kv.1 kv.2) = dkeys m := by
      rw [dkeys_dinsert, if_pos hk]
    have := ih (dinsert m kv.1 kv.2)
      (fun kv2 hkv2 => by rw [hkeys]; exact h kv2 (List.mem_cons_of_mem _ hkv2))
    have hstep : dinsertAll m (kv :: rest) = dinsertAll (dinsert m kv.1 kv.2) rest := rfl
    rw [hstep, this, hkeys]

theorem mem_wlast_isSome {α : Type} (ops : AList α) (k : String) (v : α)
    (h : (k, v) ∈ ops) : (wlast ops k).isSome := by
  induction ops with
  | nil => cases h
  | cons kv rest ih =>
    rw [wlast_cons]
    rcases hw : wlast rest k with _ | v2
    · rcases List.mem_cons.mp h with he | hm
      · rw [← he]
        simp
      · have := ih hm
        rw [hw] at this
        cases this
    · simp

theorem ops_key_mem_dinsertAll {α : Type} (ops : AList α) (m : AList α) (k : String) (v : α)
    (h : (k, v) ∈ ops) : k ∈ dkeys (dinsertAll m ops) := by
  rw [mem_dkeys_iff_isSome, dlookup_dinsertAll]
  have := mem_wlast_isSome ops k v h
  rcases hw : wlast ops k with _ | v2
  · rw [hw] at this
    cases this
  · simp

theorem alist_ext {α : Type} :
    ∀ (a b : AList α), (dkeys a).Nodup → dkeys a = dkeys b →
      (∀ k, dlookup a k = dlookup b k) → a = b := by
  intro a
  induction a with
  | nil =>
    intro b _ hkeys _
    cases b with
    | nil => rfl
    | cons kv rest => cases hkeys
  | cons kv rest ih =>
    intro b hnd hkeys hlook
    obtain ⟨k, v⟩ := kv
    cases b with
    | nil => cases hkeys
    | cons kv2 b' =>
      obtain ⟨k2, v2⟩ := kv2
      have hk : k = k2 := by
        have : dkeys ((k, v) :: rest) = k :: dkeys rest := rfl
        have h2 : dkeys ((k2, v2) :: b') = k2 :: dkeys b' := rfl
        rw [this, h2] at hkeys
        exact (List.cons.injEq _ _ _ _).mp hkeys |>.1
      subst hk
      have htl : dkeys rest = dkeys b' := by
        have : dkeys ((k, v) :: rest) = k :: dkeys rest := rfl
        have h2 : dkeys ((k, v2) :: b') = k :: dkeys b' := rfl
        rw [this, h2] at hkeys
        exact (List.cons.injEq _ _ _ _).mp hkeys |>.2
      have hv : v = v2 := by
        have := hlook k
        simp [dlookup] at this
        exact this
      subst hv
      have hndtl : (dkeys rest).Nodup := by
        have : dkeys ((k, v) :: rest) = k :: dkeys rest := rfl
        rw [this] at hnd
        exact (List.nodup_cons.mp hnd).2
      have hknotin : k ∉ dkeys rest := by
        have : dkeys ((k, v) :: rest) = k :: dkeys rest := rfl
        rw [this] at hnd
        exact (List.nodup_cons.mp hnd).1
      refine congrArg _ (ih b' hndtl htl ?_)
      intro q
      by_cases hq : q = k
      · subst hq
        have h1 : dlookup rest q = none :=
          dlookup_eq_none_of_not_mem rest q hknotin
        have h2 : dlookup b' q = none := by
          refine dlookup_eq_none_of_not_mem b' q ?_
          rw [← htl]
          exact hknotin
        rw [h1, h2]
      · have hq2 : ¬ k = q := fun he => hq he.symm
        have := hlook q
        simpa [dlookup, hq2] using this

theorem mapVals_id {α : Type} (m : AList α) : mapVals (fun v => v) m = m := by
  induction m with
  | nil => rfl
  | cons kv rest ih =>
    have h1 : mapVals (fun v : α => v) (kv :: rest) =
        (kv.1, kv.2) :: mapVals (fun v : α => v) rest := rfl
    rw [h1, ih]

theorem dkeys_mapVals {α β : Type} (f : α → β) (m : AList α) :
    dkeys (mapVals f m) = dkeys m := by
  induction m with
  | nil => rfl
  | cons kv rest ih =>
    have h1 : mapVals f (kv :: rest) = (kv.1, f kv.2) :: mapVals f rest := rfl
    have h2 : dkeys ((kv.1, f kv.2) :: mapVals f rest) = kv.1 :: dkeys (mapVals f rest) := rfl
    have h3 : dkeys (kv :: rest) = kv.1 :: dkeys rest := rfl
    rw [h1, h2, h3, ih]

theorem dlookup_mapVals {α β : Type} (f : α → β) (m : AList α) (k : String) :
    dlookup (mapVals f m) k = (dlookup m k).map f := by
  induction m with
  | nil => rfl
  | cons kv rest ih =>
    obtain ⟨k2, v2⟩ := kv
    have hm : mapVals f ((k2, v2) :: rest) = (k2, f v2) :: mapVals f rest := rfl
    have hd1 : dlookup ((k2, f v2) :: mapVals f rest) k =
        if k2 = k then some (f v2) else dlookup (mapVals f rest) k := rfl
    have hd2 : dlookup ((k2, v2) :: rest) k =
        if k2 = k then some v2 else dlookup rest k := rfl
    rw [hm, hd1, hd2]
    by_cases h : k2 = k <;> simp [h, ih]

/-- Absorption: re-applying a write sequence on top of (a value-wise
transform of) the dict it built from scratch reproduces that dict — every
key it could touch is already present with its position fixed, and every
value it writes is overwritten to the same final value. -/
theorem dinsertAll_mapVals_absorb {α : Type} (f : α → α) (ops : AList α) :
    dinsertAll (mapVals f (dinsertAll [] ops)) ops = dinsertAll [] ops := by
  have hnd0 : (dkeys (dinsertAll ([] : AList α) ops)).Nodup :=
    nodup_dkeys_dinsertAll ops [] (by simp [dkeys])
  have hsub : ∀ kv ∈ ops, kv.1 ∈ dkeys (mapVals f (dinsertAll ([] : AList α) ops)) := by
    intro kv hkv
    rw [dkeys_mapVals]
    exact ops_key_mem_dinsertAll ops [] kv.1 kv.2 hkv
  refine alist_ext _ _ ?_ ?_ ?_
  · refine nodup_dkeys_dinsertAll ops _ ?_
    rw [dkeys_mapVals]
    exact hnd0
  · rw [dkeys_dinsertAll_of_sub ops _ hsub, dkeys_mapVals]
  · intro k
    rw [dlookup_dinsertAll, dlookup_dinsertAll]
    rcases hw : wlast ops k with _ | v
    · rw [dlookup_mapVals]
      have : dlookup (dinsertAll ([] : AList α) ops) k = none := by
        rw [dlookup_dinsertAll, hw]
        rfl
      rw [this]
      rfl
    · rfl

/-- Absorption, untransformed variant. -/
theorem dinsertAll_absorb {α : Type} (ops : AList α) :
    dinsertAll (dinsertAll [] ops) ops = dinsertAll [] ops := by
  have h := dinsertAll_mapVals_absorb (fun v => v) ops
  rw [mapVals_id] at h
  exact h

theorem mem_sadd (s : List String) (x y : String) : y ∈ sadd s x ↔ y ∈ s ∨ y = x := by
  unfold sadd
  by_cases h : x ∈ s
  · simp [h]
    intro he; subst he; exact h
  · simp [h]

theorem mem_saddAll (xs : List String) (s : List String) (y : String) :
    y ∈ saddAll s xs ↔ y ∈ s ∨ y ∈ xs := by
  induction xs generalizing s with
  | nil => simp [saddAll]
  | cons x rest ih =>
    have step : saddAll s (x :: rest) = saddAll (sadd s x) rest := rfl
    rw [step, ih, mem_sadd]
    constructor
    · rintro ((h | h) | h)
      · exact Or.inl h
      · exact Or.inr (by simp [h])
      · exact Or.inr (List.mem_cons_of_mem _ h)
    · rintro (h | h)
      · exact Or.inl (Or.inl h)
      · rcases List.mem_cons.mp h with rfl | h2
        · exact Or.inl (Or.inr rfl)
        · exact Or.inr h2

theorem mem_sdiffL (s xs : List String) (y : String) :
    y ∈ sdiffL s xs ↔ y ∈ s ∧ y ∉ xs := by
  simp [sdiffL]

/-- The inference step reformulated through `targetDefaultDelete` for a
string target. -/
theorem inferStep_str (fp : AList Dict) (acc : List String) (s : String) :
    inferStep fp acc (.str s) = if targetDefaultDelete fp s then sadd acc s else acc := by
  have h1 : inferStep fp acc (.str s) =
      match dlookup fp s with
      | none => if ¬ schemaDefaultKeep then sadd acc s else acc
      | some prop => if ¬ defaultKeepForSource (dlookup prop "source") then sadd acc s else acc := rfl
  rw [h1]
  unfold targetDefaultDelete
  rcases hl : dlookup fp s with _ | prop
  · simp [schemaDefaultKeep]
  · cases hdk : defaultKeepForSource (dlookup prop "source") <;> simp [hdk]

/-- A non-string target is skipped by the inference step. -/
theorem inferStep_nonstr (fp : AList Dict) (acc : List String) (fv : Value)
    (h : ∀ s, fv ≠ .str s) : inferStep fp acc fv = acc := by
  cases fv with
  | str s => exact absurd rfl (h s)
  | null => rfl
  | bool b => rfl
  | int n => rfl
  | list xs => rfl
  | tuple xs => rfl
  | dict m => rfl
  | tagged i v => rfl

/-- Membership in the keep/delete inference loop's result: a key is
inferred for deletion exactly when it occurs as a string among the
referenced targets and its own descriptor's keep default resolves to
delete. -/
theorem mem_inferLoop_iff (fp : AList Dict) (refs : List Value) (k : String) :
    k ∈ inferLoop fp refs ↔ Value.str k ∈ refs ∧ targetDefaultDelete fp k := by
  unfold inferLoop
  suffices h : ∀ (acc : List String),
      k ∈ refs.foldl (inferStep fp) acc ↔
        k ∈ acc ∨ (Value.str k ∈ refs ∧ targetDefaultDelete fp k) by
    rw [h []]
    simp
  induction refs with
  | nil => intro acc; simp
  | cons fv rest ih =>
    intro acc
    rw [List.foldl_cons, ih]
    cases fv with
    | str s =>
      rw [inferStep_str]
      by_cases hs : targetDefaultDelete fp s
      · rw [if_pos hs, mem_sadd]
        constructor
        · rintro ((h | rfl) | h)
          · exact Or.inl h
          · exact Or.inr ⟨List.mem_cons_self _ _, hs⟩
          · exact Or.inr ⟨List.mem_cons_of_mem _ h.1, h.2⟩
        · rintro (h | ⟨hm, hdel⟩)
          · exact Or.inl (Or.inl h)
          · rcases List.mem_cons.mp hm with he | hm2
            · cases he
              exact Or.inl (Or.inr rfl)
            · exact Or.inr ⟨hm2, hdel⟩
      · rw [if_neg hs]
        constructor
        · rintro (h | h)
          · exact Or.inl h
          · exact Or.inr ⟨List.mem_cons_of_mem _ h.1, h.2⟩
        · rintro (h | ⟨hm, hdel⟩)
          · exact Or.inl h
          · rcases List.mem_cons.mp hm with he | hm2
            · cases he
              exact absurd hdel hs
            · exact Or.inr ⟨hm2, hdel⟩
    | null =>
      rw [inferStep_nonstr fp acc _ (by intro s h; cases h)]
      simp
    | bool b =>
      rw [inferStep_nonstr fp acc _ (by intro s h; cases h)]
      simp
    | int n =>
      rw [inferStep_nonstr fp acc _ (by intro s h; cases h)]
      simp
    | list xs =>
      rw [inferStep_nonstr fp acc _ (by intro s h; cases h)]
      simp
    | tuple xs =>
      rw [inferStep_nonstr fp acc _ (by intro s h; cases h)]
      simp
    | dict m =>
      rw [inferStep_nonstr fp acc _ (by intro s h; cases h)]
      simp
    | tagged i v =>
      rw [inferStep_nonstr fp acc _ (by intro s h; cases h)]
      simp

/-- C2 amended — the keep/delete default of a referenced target is
determined by the *referenced target's own* declared source kind, not the
referencing field's: a literal-sourced (or never-declared) target is kept
by default, a field-sourced target is deleted by default, with explicit
overrides winning; on the spec's example neither `base` nor `doubled` is
marked and both survive. -/
theorem keepInferencePolicyAmended :
    (∀ (ctx ctx' : Ctx) (k : String) (prop : Dict),
        resolveMarkedForDelete ctx = .ok ctx' →
        dlookup ctx.fieldProps k = some prop →
        dlookup prop "source" = some (.str "literal") →
        k ∉ ctx.explicitlyDeleted →
        k ∉ ctx'.markedForDelete) ∧
    (∀ (ctx ctx' : Ctx) (k : String) (prop : Dict) (refs : List Value),
        resolveMarkedForDelete ctx = .ok ctx' →
        buildReferenced ctx.fieldProps = .ok refs →
        Value.str k ∈ refs →
        dlookup ctx.fieldProps k = some prop →
        dlookup prop "source" = some (.str "field") →
        k ∉ ctx.explicitlyKept →
        k ∈ ctx'.markedForDelete) ∧
    (∀ (ctx ctx' : Ctx) (k : String),
        resolveMarkedForDelete ctx = .ok ctx' →
        dlookup ctx.fieldProps k = none →
        k ∉ ctx.explicitlyDeleted →
        k ∉ ctx'.markedForDelete) ∧
    (plotStyleInit 5 [] refExampleDoc "en" true emptyCtx).2.1.markedForDelete = [] ∧
    (plotStyleInit 5 [] refExampleDoc "en" true emptyCtx).1 =
      .ok [("base", .int 10), ("doubled", .int 10)] := by
  refine ⟨?_, ?_, ?_, rfl, rfl⟩
  · intro ctx ctx' k prop hres hlk hsrc hnd
    unfold resolveMarkedForDelete at hres
    rcases hb : buildReferenced ctx.fieldProps with e | refs <;> rw [hb] at hres
    · cases hres
    · cases hres
      intro hmem
      rw [mem_sdiffL] at hmem
      rcases (mem_saddAll _ _ _).mp hmem.1 with hinf | hdel
      · have := ((mem_inferLoop_iff _ _ _).mp hinf).2
        unfold targetDefaultDelete at this
        rw [hlk] at this
        simp [hsrc, defaultKeepForSource] at this
      · exact hnd hdel
  · intro ctx ctx' k prop refs hres hb hmem hlk hsrc hnk
    unfold resolveMarkedForDelete at hres
    rw [hb] at hres
    cases hres
    rw [mem_sdiffL]
    refine ⟨(mem_saddAll _ _ _).mpr (Or.inl ?_), hnk⟩
    rw [mem_inferLoop_iff]
    refine ⟨hmem, ?_⟩
    unfold targetDefaultDelete
    rw [hlk]
    simp [hsrc, defaultKeepForSource]
  · intro ctx ctx' k hres hlk hnd
    unfold resolveMarkedForDelete at hres
    rcases hb : buildReferenced ctx.fieldProps with e | refs <;> rw [hb] at hres
    · cases hres
    · cases hres
      intro hmem
      rw [mem_sdiffL] at hmem
      rcases (mem_saddAll _ _ _).mp hmem.1 with hinf | hdel
      · have := ((mem_inferLoop_iff _ _ _).mp hinf).2
        unfold targetDefaultDelete at this
        rw [hlk] at this
        simp [schemaDefaultKeep] at this
      · exact hnd hdel

/-- C2 witness — the amended policy at the spec's example context: `base`
(a literal-sourced referenced target with no explicit override) is not
marked for deletion. -/
theorem keepInferencePolicyAmendedWitness :
    "base" ∉ (refExampleCtx.markedForDelete) ∧
    "base" ∉ ({refExampleCtx with markedForDelete := ([] : List String)}).markedForDelete :=
  ⟨by simp [refExampleCtx],
   keepInferencePolicyAmended.1 refExampleCtx
     {refExampleCtx with markedForDelete := ([] : List String)} "base"
     [("value", .int 10), ("validator", .str "int"), ("source", .str "literal")]
     rfl rfl rfl (by simp [refExampleCtx])⟩

/-- C7 — `FigsizeValidator` breaks the validator-capability contract: the
tuple `(4, 3)` validates (so `parse` returns it), yet `sanitize` calls
`_safe_eval` on it, and `eval` of a non-string raises `TypeError`: a
registered validator whose `sanitize` fails on an input `validate`
accepts, contradicting "sanitize never fails ... otherwise returns the
same result as parse". -/
theorem figsizeSanitizeFailsOnValidTuple :
    figsizeValidate (.tuple [.int 4, .int 3]) = true ∧
    figsizeParse (.tuple [.int 4, .int 3]) = .ok (.val (.tuple [.int 4, .int 3])) ∧
    figsizeSanitize (.tuple [.int 4, .int 3]) =
      .error "TypeError: eval() arg 1 must be a string, bytes or code object" :=
  ⟨rfl, rfl, rfl⟩

/-- C4 — the deletion branch of `PlotStyle.__init__` is unreachable as
written: with `keep_all_fields = False` the call
`self._delete_marked_fields()` omits the required `ctx` argument and the
construction raises `TypeError` instead of returning the filtered scope;
with `keep_all_fields = True` deletion is skipped and every resolved key is
returned, as the claim states. -/
theorem deleteMarkedFieldsArityBug :
    (plotStyleInit 5 [] [("a", .int 1)] "en" false emptyCtx).1 =
      .error "TypeError: _delete_marked_fields() missing 1 required positional argument: 'ctx'" ∧
    (plotStyleInit 5 [] [("a", .int 1)] "en" true emptyCtx).1 = .ok [("a", .int 1)] :=
  ⟨rfl, rfl⟩

/-- C1 counterexample — a field whose explicit-tagged payload lacks `value`
*does* abort the whole resolution: `normalize_prop` is called outside the
per-field `try` blocks, so the document `missingValueDoc` produces a
`ValueError` for field `b` instead of a scope containing `a` and `c`. -/
theorem normalizeAbortCounterexample :
    (plotStyleInit 5 [] missingValueDoc "en" true emptyCtx).1 =
      .error "ValueError: Field 'b' tagged explicit but missing payload key 'value'" :=
  rfl

/-- C2 counterexample — on the spec's own example the key `base` is *not*
marked for deletion: the inference reads the source kind of the referenced
target's own declaration (`base` is literal-sourced, hence keep), not the
referencing field's, and the resolved scope keeps both keys. -/
theorem keepInferencePolicyCounterexample :
    (plotStyleInit 5 [] refExampleDoc "en" true emptyCtx).2.1.markedForDelete = [] ∧
    (plotStyleInit 5 [] refExampleDoc "en" true emptyCtx).1 =
      .ok [("base", .int 10), ("doubled", .int 10)] :=
  ⟨rfl, rfl⟩

/-- C3 counterexample — with the referenced key present in both scopes, the
union `dump_to | read_from` lets the *read* scope win (Python dict-union
semantics), not the target scope being built: the fetch returns the read
scope's 2, not the target scope's 1. -/
theorem fetchPrecedenceCounterexample :
    fetchValue "d" refToK [("k", .int 1)] [("k", .int 2)] = .ok ("k", .int 2) ∧
    Value.int 2 ≠ Value.int 1 :=
  ⟨rfl, by simp⟩

/-- C5 counterexample — when a mapping contains the active language key,
the selected entry is returned as-is: the nested table under `en` is *not*
recursively localized (the claim's recursion would give `"a"`). -/
theorem localizationSelectionCounterexample :
    localizeValue "en" (.dict [("en", .dict [("en", .str "a"), ("pt", .str "b")])]) =
      .dict [("en", .str "a"), ("pt", .str "b")] ∧
    Value.dict [("en", .str "a"), ("pt", .str "b")] ≠ .str "a" :=
  ⟨rfl, by simp⟩

theorem localizeEntries_eq_mapVals (lang : String) (m : List (String × Value)) :
    localizeEntries lang m = mapVals (localizeValue lang) m := by
  induction m with
  | nil => rfl
  | cons kv rest ih =>
    obtain ⟨k, v⟩ := kv
    simp [localizeEntries, mapVals, List.map_cons] at ih ⊢
    exact ih

theorem localizeList_eq_map (lang : String) (xs : List Value) :
    localizeList lang xs = xs.map (localizeValue lang) := by
  induction xs with
  | nil => rfl
  | cons v rest ih => simp [localizeList, ih]

/-- C5 amended — localization: a mapping containing the active language
key is replaced by that entry's value *as-is* (the selected value is not
itself localized further); a mapping without the key keeps its key set and
localizes each value independently; sequences are localized element-wise;
scalars pass through; the pass is applied to both the main scope and the
affix registry.  The spec's own two examples hold. -/
theorem localizationAmended :
    (∀ (lang : String) (m : List (String × Value)) (v : Value),
        dlookup m lang = some v → localizeValue lang (.dict m) = v) ∧
    (∀ (lang : String) (m : List (String × Value)),
        dlookup m lang = none →
        localizeValue lang (.dict m) = .dict (mapVals (localizeValue lang) m)) ∧
    (∀ (lang : String) (xs : List Value),
        localizeValue lang (.list xs) = .list (xs.map (localizeValue lang))) ∧
    (∀ (lang : String) (n : Int), localizeValue lang (.int n) = .int n) ∧
    (∀ (lang s : String), localizeValue lang (.str s) = .str s) ∧
    (∀ (lang : String) (b : Bool), localizeValue lang (.bool b) = .bool b) ∧
    (∀ lang : String, localizeValue lang .null = .null) ∧
    (∀ (params affixDict : Dict) (lang : String),
        applyLocalization params affixDict lang =
          (mapVals (localizeValue lang) params, mapVals (localizeValue lang) affixDict)) ∧
    localizeValue "pt" helloTable = .str "Ola" ∧
    localizeValue "fr" helloTable = helloTable := by
  refine ⟨?_, ?_, ?_, fun _ _ => rfl, fun _ _ => rfl, fun _ _ => rfl, fun _ => rfl,
    fun _ _ _ => rfl, rfl, rfl⟩
  · intro lang m v h
    simp [localizeValue, h]
  · intro lang m h
    simp [localizeValue, h, localizeEntries_eq_mapVals]
  · intro lang xs
    simp [localizeValue, localizeList_eq_map]

/-- C5 witness — the amended selection rule at a concrete table. -/
theorem localizationAmendedWitness :
    localizeValue "en" (.dict [("en", .int 1)]) = .int 1 :=
  localizationAmended.1 "en" [("en", .int 1)] (.int 1) rfl

/-- C6 counterexample — a prefix/suffix concatenation with incompatible
operand types is *not* caught: `apply_affixes` runs outside any handler in
`PlotStyle.__init__`, so the whole resolution aborts with `TypeError`
instead of warning and returning the field undecorated. -/
theorem affixMismatchCounterexample :
    (plotStyleInit 5 [] affixMismatchDoc "en" true emptyCtx).1 =
      .error "TypeError: unsupported operand types for +" :=
  rfl

/-- C6 amended — an affix concatenation whose operands have incompatible
types is *uncaught*: `apply_affixes` propagates the `TypeError` and the
whole resolution aborts (first, general conjunct and the concrete
`affixMismatchDoc` run).  What *is* caught per-field is a failure while
parsing the affix descriptor during registration: the field keeps its
undecorated value, one warning names `key.affixtype`, and resolution
returns a result (`affixWarnDoc` run); a well-typed decoration is applied
(`affixOkDoc` run). -/
theorem affixFailureHandlingAmended :
    (∀ (params rest : Dict) (field : String) (av pv : Value) (key e : String),
        unpackAffixKey field = .ok (key, "suffix") →
        dlookup params key = some pv →
        pyAdd pv av = .error e →
        applyAffixes params ((field, av) :: rest) = .error e) ∧
    (plotStyleInit 5 [] affixMismatchDoc "en" true emptyCtx).1 =
      .error "TypeError: unsupported operand types for +" ∧
    (plotStyleInit 5 [] affixOkDoc "en" true emptyCtx).1 = .ok [("name", .str "Report_v2")] ∧
    (plotStyleInit 5 [] affixWarnDoc "en" true emptyCtx).1 = .ok [("name", .str "Report")] ∧
    (plotStyleInit 5 [] affixWarnDoc "en" true emptyCtx).2.2 =
      [("name.suffix", "ParseError: Failed to parse key 'name': SourceFieldMissing")] := by
  refine ⟨?_, rfl, rfl, rfl, rfl⟩
  intro params rest field av pv key e hu hl hadd
  unfold applyAffixes
  rw [hu]
  simp [hl, hadd]

/-- C6 witness — the amended abort behavior at a concrete mismatch:
string value, list suffix. -/
theorem affixFailureHandlingAmendedWitness :
    applyAffixes [("name", .str "a")] [("name__suffix__", .list [])] =
      .error "TypeError: unsupported operand types for +" :=
  affixFailureHandlingAmended.1 [("name", .str "a")] [] "name__suffix__" (.list [])
    (.str "a") "name" "TypeError: unsupported operand types for +" rfl rfl rfl

/-- C1 amended — per-field isolation covers reference resolution, value
parsing (unknown validator ids included) and chain-includes: whenever every
field of a document normalizes, the per-field loop never aborts, whatever
failures occur inside (first two conjuncts); on `badValidatorDoc` the two
good fields resolve fully and exactly one warning names the bad field.
Normalization failures, by contrast, are outside the isolation (see the
counterexample). -/
theorem perFieldIsolationAmended :
    (∀ (fs : FileSys) (dump : DumpRec) (fields : List (String × Value)) (ctx : Ctx)
        (scope : Dict) (warns : List Warn),
        (∀ kv ∈ fields, (normalizeProp kv.1 kv.2).isOk = true) →
        (dumpFields fs dump fields ctx scope warns).err = none) ∧
    (∀ (fs : FileSys) (fuel : Nat) (handle : Dict) (ctx : Ctx) (scope : Dict)
        (warns : List Warn),
        (∀ kv ∈ derase handle "configs", (normalizeProp kv.1 kv.2).isOk = true) →
        (dumpGo fs (fuel + 1) handle ctx scope warns).err = none) ∧
    (plotStyleInit 5 [] badValidatorDoc "en" true emptyCtx).1 =
      .ok [("x", .int 5), ("y", .str "hi")] ∧
    (plotStyleInit 5 [] badValidatorDoc "en" true emptyCtx).2.2 =
      [("bad", "ParseError: Failed to parse key 'bad': Unknown validator 'nope'")] := by
  have main : ∀ (fs : FileSys) (dump : DumpRec) (fields : List (String × Value)) (ctx : Ctx)
      (scope : Dict) (warns : List Warn),
      (∀ kv ∈ fields, (normalizeProp kv.1 kv.2).isOk = true) →
      (dumpFields fs dump fields ctx scope warns).err = none := by
    intro fs dump fields
    induction fields with
    | nil => intro ctx scope warns _; rfl
    | cons kv rest ih =>
      intro ctx scope warns hall
      obtain ⟨key, rawProp⟩ := kv
      have hok : (normalizeProp key rawProp).isOk = true :=
        hall (key, rawProp) (List.mem_cons_self _ _)
      have hrest : ∀ kv ∈ rest, (normalizeProp kv.1 kv.2).isOk = true :=
        fun kv hkv => hall kv (List.mem_cons_of_mem _ hkv)
      rcases hnorm : normalizeProp key rawProp with e | prop
      · rw [hnorm] at hok
        cases hok
      · unfold dumpFields
        rw [hnorm]
        dsimp only
        split
        · split
          · exact ih _ _ _ hrest
          · split
            · exact ih _ _ _ hrest
            · exact ih _ _ _ hrest
        · split
          · exact ih _ _ _ hrest
          · exact ih _ _ _ hrest
  refine ⟨main, ?_, rfl, rfl⟩
  intro fs fuel handle ctx scope warns h
  exact main fs (dumpGo fs fuel) (derase handle "configs") ctx scope warns h

/-- C8 counterexample — a failed chain-include does *not* pop `fileStack`:
the failing path's append survives the warn-and-skip handler, so after the
document is processed the stack holds the failed path instead of being
restored to its prior (empty) contents. -/
theorem fileStackLeakCounterexample :
    (plotStyleInit 5 [] missingIncludeDoc "en" true emptyCtx).2.1.fileStack =
      [.str "missing.yaml"] ∧
    ([Value.str "missing.yaml"] : List Value) ≠ [] :=
  ⟨rfl, by simp⟩

/-- C1 witness — the no-abort guarantee instantiated at the concrete
document whose middle field has an unregistered validator. -/
theorem perFieldIsolationAmendedWitness :
    (dumpGo ([] : FileSys) 5 badValidatorDoc emptyCtx [] []).err = none :=
  perFieldIsolationAmended.2.1 [] 4 badValidatorDoc emptyCtx [] [] (by decide)

theorem keepBlock_fileStack (ctx : Ctx) (key : String) (prop : Dict) :
    (keepBlock ctx key prop).fileStack = ctx.fileStack := by
  unfold keepBlock
  split <;> rfl

theorem chainLoop_stack (fs : FileSys) (dump : DumpRec) (hd : StackExtends dump) :
    ∀ (paths : List Value) (c : Ctx) (s : Dict) (w : List Warn),
      ∃ l, (chainLoop fs dump paths c s w).2.1.fileStack = c.fileStack ++ l := by
  intro paths
  induction paths with
  | nil =>
    intro c s w
    exact ⟨[], by simp [chainLoop]⟩
  | cons p rest ih =>
    intro c s w
    unfold chainLoop
    dsimp only
    cases p with
    | str sp =>
      dsimp only
      split
      · exact ⟨[Value.str sp], rfl⟩
      · rename_i included heq
        generalize hr : dump included
          ⟨c.explicitlyKept, c.explicitlyDeleted, c.markedForDelete,
            c.fieldProps, c.affix, c.fileStack ++ [Value.str sp]⟩ s w = r
        obtain ⟨l1, hl1⟩ := hd included
          ⟨c.explicitlyKept, c.explicitlyDeleted, c.markedForDelete,
            c.fieldProps, c.affix, c.fileStack ++ [Value.str sp]⟩ s w
        rw [hr] at hl1
        dsimp only at hl1
        rcases he : r.err with _ | e
        · obtain ⟨l2, hl2⟩ := ih
            ⟨r.ctx.explicitlyKept, r.ctx.explicitlyDeleted, r.ctx.markedForDelete,
              r.ctx.fieldProps, r.ctx.affix, r.ctx.fileStack.dropLast⟩ r.scope r.warns
          refine ⟨([Value.str sp] ++ l1).dropLast ++ l2, ?_⟩
          simp only [he]
          rw [hl2]
          dsimp only
          rw [hl1, List.append_assoc, List.dropLast_append_of_ne_nil _ (by simp),
            List.append_assoc]
        · refine ⟨[Value.str sp] ++ l1, ?_⟩
          simp only [he]
          rw [hl1, List.append_assoc]
    | null => exact ⟨[Value.null], rfl⟩
    | bool b => exact ⟨[Value.bool b], rfl⟩
    | int n => exact ⟨[Value.int n], rfl⟩
    | list xs => exact ⟨[Value.list xs], rfl⟩
    | tuple xs => exact ⟨[Value.tuple xs], rfl⟩
    | dict m => exact ⟨[Value.dict m], rfl⟩
    | tagged i v => exact ⟨[Value.tagged i v], rfl⟩

theorem dumpFields_stack (fs : FileSys) (dump : DumpRec) (hd : StackExtends dump) :
    ∀ (fields : List (String × Value)) (c : Ctx) (s : Dict) (w : List Warn),
      ∃ l, (dumpFields fs dump fields c s w).ctx.fileStack = c.fileStack ++ l := by
  intro fields
  induction fields with
  | nil =>
    intro c s w
    exact ⟨[], by simp [dumpFields]⟩
  | cons kv rest ih =>
    intro c s w
    obtain ⟨key, rawProp⟩ := kv
    rcases hnorm : normalizeProp key rawProp with e | prop
    · unfold dumpFields
      rw [hnorm]
      exact ⟨[], by simp⟩
    · unfold dumpFields
      rw [hnorm]
      dsimp only
      split
      · split
        · exact ih _ _ _
        · split
          · rename_i e ctx2 scope2 warns2 heq
            obtain ⟨l2, hl2⟩ := ih ctx2 scope2 (warns2 ++ [(key, e)])
            obtain ⟨l1, hl1⟩ := chainLoop_stack fs dump hd _ _ _ _
            rw [heq] at hl1
            dsimp only at hl1
            exact ⟨l1 ++ l2, by rw [hl2, hl1, List.append_assoc]⟩
          · rename_i ctx2 scope2 warns2 heq
            obtain ⟨l2, hl2⟩ := ih (keepBlock ctx2 key prop) scope2 warns2
            obtain ⟨l1, hl1⟩ := chainLoop_stack fs dump hd _ _ _ _
            rw [heq] at hl1
            dsimp only at hl1
            exact ⟨l1 ++ l2, by rw [hl2, keepBlock_fileStack, hl1, List.append_assoc]⟩
      · split
        · exact ih _ _ _
        · obtain ⟨l2, hl2⟩ := ih _ _ _
          exact ⟨l2, by rw [hl2, keepBlock_fileStack]⟩

theorem dumpGo_stack (fs : FileSys) : ∀ fuel, StackExtends (dumpGo fs fuel) := by
  intro fuel
  induction fuel with
  | zero =>
    intro h c s w
    exact ⟨[], by simp [dumpGo]⟩
  | succ fuel ih =>
    intro h c s w
    exact dumpFields_stack fs (dumpGo fs fuel) ih (derase h "configs") c s w

/-- C8 amended — `fileStack` never loses its prior contents (one resolution
only appends, net of balanced pushes), and the push around a chain-include
is popped exactly when the include's merge returns successfully: on the
successful include the stack is restored to its prior (empty) contents and
the included fields are merged, while on the failing include the caught
warn-and-skip path leaves the failed path on the stack. -/
theorem fileStackBalanceAmended :
    (∀ (fs : FileSys) (fuel : Nat) (handle : Dict) (ctx : Ctx) (scope : Dict)
        (warns : List Warn),
        ∃ leftover,
          (dumpGo fs fuel handle ctx scope warns).ctx.fileStack = ctx.fileStack ++ leftover) ∧
    (plotStyleInit 5 subFileSys okIncludeDoc "en" true emptyCtx).2.1.fileStack = [] ∧
    (plotStyleInit 5 subFileSys okIncludeDoc "en" true emptyCtx).1 =
      .ok [("footer", .str "x")] ∧
    (plotStyleInit 5 [] missingIncludeDoc "en" true emptyCtx).2.1.fileStack =
      [.str "missing.yaml"] :=
  ⟨fun fs fuel handle ctx scope warns => dumpGo_stack fs fuel handle ctx scope warns,
   rfl, rfl, rfl⟩

/-- C10 — a field whose value fails to parse still has its normalized
descriptor recorded in `field_props` before the failure, so its reference
target still counts during keep/delete inference: in `failedRefDoc`, `bad`
produces no value (one warning, key absent from the scope), yet its
descriptor is recorded, its target `t` appears among the referenced
targets, and `t` (itself field-sourced) is marked for deletion. -/
theorem failedFieldStillCounted :
    (plotStyleInit 5 [] failedRefDoc "en" true emptyCtx).1 =
      .ok [("u", .int 7), ("t", .int 7)] ∧
    (plotStyleInit 5 [] failedRefDoc "en" true emptyCtx).2.2 =
      [("bad", "ParseError: Failed to parse key 'bad': Unknown validator 'nope'")] ∧
    dlookup (plotStyleInit 5 [] failedRefDoc "en" true emptyCtx).2.1.fieldProps "bad" =
      some [("value", .str "t"), ("source", .str "field"), ("validator", .str "nope")] ∧
    buildReferenced (plotStyleInit 5 [] failedRefDoc "en" true emptyCtx).2.1.fieldProps =
      .ok [.str "u", .str "t"] ∧
    (plotStyleInit 5 [] failedRefDoc "en" true emptyCtx).2.1.markedForDelete = ["t"] :=
  ⟨rfl, rfl, rfl, rfl, rfl⟩


theorem dinsertAll_append {α : Type} (m a b : AList α) :
    dinsertAll m (a ++ b) = dinsertAll (dinsertAll m a) b := by
  simp [dinsertAll, List.foldl_append]

theorem keepBlock_affix (ctx : Ctx) (key : String) (prop : Dict) :
    (keepBlock ctx key prop).affix = ctx.affix := by
  unfold keepBlock
  split <;> rfl

theorem keepBlock_fieldProps (ctx : Ctx) (key : String) (prop : Dict) :
    (keepBlock ctx key prop).fieldProps = ctx.fieldProps := by
  unfold keepBlock
  split <;> rfl

theorem registerAffixStep_spec (fs : FileSys) (key : String) (prop : Dict)
    (dumpTo readFrom : Dict) (at1 : String) :
    ∃ (ops : Dict) (wadd : List Warn), ∀ (ad : Dict) (w : List Warn),
      registerAffixStep fs key prop dumpTo readFrom (ad, w) at1 =
        (dinsertAll ad ops, w ++ wadd) := by
  rcases hb : dlookup prop at1 with _ | av
  · refine ⟨[], [], fun ad w => ?_⟩
    unfold registerAffixStep
    rw [hb]
    simp [dinsertAll]
  · cases av with
    | dict sub =>
      cases sub with
      | nil =>
        refine ⟨[], [], fun ad w => ?_⟩
        unfold registerAffixStep
        rw [hb]
        simp [dinsertAll]
      | cons kv0 sub0 =>
        rcases hp : parsePropV fs key (kv0 :: sub0) dumpTo readFrom with e | parsed
        · refine ⟨[], [(key ++ "." ++ at1, e)], fun ad w => ?_⟩
          unfold registerAffixStep
          rw [hb]
          dsimp only
          rw [hp]
          simp [dinsertAll]
        · refine ⟨[(affixFormatKey key at1, parsed)], [], fun ad w => ?_⟩
          unfold registerAffixStep
          rw [hb]
          dsimp only
          rw [hp]
          simp [dinsertAll]
    | null =>
      refine ⟨[], [(key ++ "." ++ at1,
        "ParseError: TypeError: affix descriptor is not subscriptable")], fun ad w => ?_⟩
      unfold registerAffixStep
      rw [hb]
      simp [dinsertAll]
    | bool b =>
      refine ⟨[], [(key ++ "." ++ at1,
        "ParseError: TypeError: affix descriptor is not subscriptable")], fun ad w => ?_⟩
      unfold registerAffixStep
      rw [hb]
      simp [dinsertAll]
    | int n =>
      refine ⟨[], [(key ++ "." ++ at1,
        "ParseError: TypeError: affix descriptor is not subscriptable")], fun ad w => ?_⟩
      unfold registerAffixStep
      rw [hb]
      simp [dinsertAll]
    | str st =>
      refine ⟨[], [(key ++ "." ++ at1,
        "ParseError: TypeError: affix descriptor is not subscriptable")], fun ad w => ?_⟩
      unfold registerAffixStep
      rw [hb]
      simp [dinsertAll]
    | list xs =>
      refine ⟨[], [(key ++ "." ++ at1,
        "ParseError: TypeError: affix descriptor is not subscriptable")], fun ad w => ?_⟩
      unfold registerAffixStep
      rw [hb]
      simp [dinsertAll]
    | tuple xs =>
      refine ⟨[], [(key ++ "." ++ at1,
        "ParseError: TypeError: affix descriptor is not subscriptable")], fun ad w => ?_⟩
      unfold registerAffixStep
      rw [hb]
      simp [dinsertAll]
    | tagged i v =>
      refine ⟨[], [(key ++ "." ++ at1,
        "ParseError: TypeError: affix descriptor is not subscriptable")], fun ad w => ?_⟩
      unfold registerAffixStep
      rw [hb]
      simp [dinsertAll]

theorem registerAffixable_spec (fs : FileSys) (key : String) (prop : Dict)
    (dumpTo readFrom : Dict) :
    ∃ (ops : Dict) (wadd : List Warn), ∀ (ad : Dict) (w : List Warn),
      registerAffixable fs ad key prop dumpTo readFrom w =
        (dinsertAll ad ops, w ++ wadd) := by
  obtain ⟨o1, w1, h1⟩ := registerAffixStep_spec fs key prop dumpTo readFrom "prefix"
  obtain ⟨o2, w2, h2⟩ := registerAffixStep_spec fs key prop dumpTo readFrom "suffix"
  refine ⟨o1 ++ o2, w1 ++ w2, fun ad w => ?_⟩
  have hfold : registerAffixable fs ad key prop dumpTo readFrom w =
      registerAffixStep fs key prop dumpTo readFrom
        (registerAffixStep fs key prop dumpTo readFrom (ad, w) "prefix") "suffix" := rfl
  rw [hfold, h1, h2, dinsertAll_append, List.append_assoc]


theorem chainLoop_congr (fs : FileSys) (dump : DumpRec) (hd : DumpCongr dump) :
    ∀ (paths : List Value) (s : Dict) (w : List Warn) (c c' : Ctx),
      (chainLoop fs dump paths c s w).1 = (chainLoop fs dump paths c' s w).1 ∧
      (chainLoop fs dump paths c s w).2.2.1 = (chainLoop fs dump paths c' s w).2.2.1 ∧
      (chainLoop fs dump paths c s w).2.2.2 = (chainLoop fs dump paths c' s w).2.2.2 ∧
      ∃ aops fops,
        (chainLoop fs dump paths c s w).2.1.affix = dinsertAll c.affix aops ∧
        (chainLoop fs dump paths c' s w).2.1.affix = dinsertAll c'.affix aops ∧
        (chainLoop fs dump paths c s w).2.1.fieldProps = dinsertAll c.fieldProps fops ∧
        (chainLoop fs dump paths c' s w).2.1.fieldProps = dinsertAll c'.fieldProps fops := by
  intro paths
  induction paths with
  | nil =>
    intro s w c c'
    exact ⟨rfl, rfl, rfl, [], [], rfl, rfl, rfl, rfl⟩
  | cons p rest ih =>
    intro s w c c'
    unfold chainLoop
    dsimp only
    cases p with
    | str sp =>
      dsimp only
      split
      · exact ⟨rfl, rfl, rfl, [], [], rfl, rfl, rfl, rfl⟩
      · rename_i included heq
        obtain ⟨herr, hscope, hwarns, aops1, fops1, ha1, ha1', hf1, hf1'⟩ :=
          hd included s w
            ⟨c.explicitlyKept, c.explicitlyDeleted, c.markedForDelete,
              c.fieldProps, c.affix, c.fileStack ++ [Value.str sp]⟩
            ⟨c'.explicitlyKept, c'.explicitlyDeleted, c'.markedForDelete,
              c'.fieldProps, c'.affix, c'.fileStack ++ [Value.str sp]⟩
        generalize hr : dump included
          ⟨c.explicitlyKept, c.explicitlyDeleted, c.markedForDelete,
            c.fieldProps, c.affix, c.fileStack ++ [Value.str sp]⟩ s w = r
        generalize hr2 : dump included
          ⟨c'.explicitlyKept, c'.explicitlyDeleted, c'.markedForDelete,
            c'.fieldProps, c'.affix, c'.fileStack ++ [Value.str sp]⟩ s w = r2
        rw [hr, hr2] at herr hscope hwarns
        rw [hr] at ha1 hf1
        rw [hr2] at ha1' hf1'
        dsimp only at ha1 ha1' hf1 hf1'
        rw [← herr, ← hscope, ← hwarns]
        rcases he : r.err with _ | e
        · obtain ⟨e1, e2, e3, aops2, fops2, hb1, hb1', hb2, hb2'⟩ := ih r.scope r.warns
            ⟨r.ctx.explicitlyKept, r.ctx.explicitlyDeleted, r.ctx.markedForDelete,
              r.ctx.fieldProps, r.ctx.affix, r.ctx.fileStack.dropLast⟩
            ⟨r2.ctx.explicitlyKept, r2.ctx.explicitlyDeleted, r2.ctx.markedForDelete,
              r2.ctx.fieldProps, r2.ctx.affix, r2.ctx.fileStack.dropLast⟩
          dsimp only at hb1 hb1' hb2 hb2'
          simp only [he]
          refine ⟨e1, e2, e3, aops1 ++ aops2, fops1 ++ fops2, ?_, ?_, ?_, ?_⟩
          · rw [hb1, ha1, dinsertAll_append]
          · rw [hb1', ha1', dinsertAll_append]
          · rw [hb2, hf1, dinsertAll_append]
          · rw [hb2', hf1', dinsertAll_append]
        · simp only [he]
          exact ⟨trivial, trivial, trivial, aops1, fops1, ha1, ha1', hf1, hf1'⟩
    | null => exact ⟨rfl, rfl, rfl, [], [], rfl, rfl, rfl, rfl⟩
    | bool b => exact ⟨rfl, rfl, rfl, [], [], rfl, rfl, rfl, rfl⟩
    | int n => exact ⟨rfl, rfl, rfl, [], [], rfl, rfl, rfl, rfl⟩
    | list xs => exact ⟨rfl, rfl, rfl, [], [], rfl, rfl, rfl, rfl⟩
    | tuple xs => exact ⟨rfl, rfl, rfl, [], [], rfl, rfl, rfl, rfl⟩
    | dict m => exact ⟨rfl, rfl, rfl, [], [], rfl, rfl, rfl, rfl⟩
    | tagged i v => exact ⟨rfl, rfl, rfl, [], [], rfl, rfl, rfl, rfl⟩


theorem dinsertAll_cons {α : Type} (m : AList α) (k : String) (v : α) (ops : AList α) :
    dinsertAll m ((k, v) :: ops) = dinsertAll (dinsert m k v) ops := rfl

theorem dumpChainCase (fs : FileSys) (dump : DumpRec) (hd : DumpCongr dump)
    (rest : List (String × Value)) (key : String) (prop : Dict)
    (ih : ∀ (s : Dict) (w : List Warn) (c c' : Ctx),
      (dumpFields fs dump rest c s w).err = (dumpFields fs dump rest c' s w).err ∧
      (dumpFields fs dump rest c s w).scope = (dumpFields fs dump rest c' s w).scope ∧
      (dumpFields fs dump rest c s w).warns = (dumpFields fs dump rest c' s w).warns ∧
      ∃ aops fops,
        (dumpFields fs dump rest c s w).ctx.affix = dinsertAll c.affix aops ∧
        (dumpFields fs dump rest c' s w).ctx.affix = dinsertAll c'.affix aops ∧
        (dumpFields fs dump rest c s w).ctx.fieldProps = dinsertAll c.fieldProps fops ∧
        (dumpFields fs dump rest c' s w).ctx.fieldProps = dinsertAll c'.fieldProps fops) :
    ∀ (paths0 : List Value) (s : Dict) (w : List Warn) (d d' : Ctx),
      (match chainLoop fs dump paths0 d s w with
        | (some e, ctx2, scope2, warns2) =>
          dumpFields fs dump rest ctx2 scope2 (warns2 ++ [(key, e)])
        | (none, ctx2, scope2, warns2) =>
          dumpFields fs dump rest (keepBlock ctx2 key prop) scope2 warns2).err =
      (match chainLoop fs dump paths0 d' s w with
        | (some e, ctx2, scope2, warns2) =>
          dumpFields fs dump rest ctx2 scope2 (warns2 ++ [(key, e)])
        | (none, ctx2, scope2, warns2) =>
          dumpFields fs dump rest (keepBlock ctx2 key prop) scope2 warns2).err ∧
      (match chainLoop fs dump paths0 d s w with
        | (some e, ctx2, scope2, warns2) =>
          dumpFields fs dump rest ctx2 scope2 (warns2 ++ [(key, e)])
        | (none, ctx2, scope2, warns2) =>
          dumpFields fs dump rest (keepBlock ctx2 key prop) scope2 warns2).scope =
      (match chainLoop fs dump paths0 d' s w with
        | (some e, ctx2, scope2, warns2) =>
          dumpFields fs dump rest ctx2 scope2 (warns2 ++ [(key, e)])
        | (none, ctx2, scope2, warns2) =>
          dumpFields fs dump rest (keepBlock ctx2 key prop) scope2 warns2).scope ∧
      (match chainLoop fs dump paths0 d s w with
        | (some e, ctx2, scope2, warns2) =>
          dumpFields fs dump rest ctx2 scope2 (warns2 ++ [(key, e)])
        | (none, ctx2, scope2, warns2) =>
          dumpFields fs dump rest (keepBlock ctx2 key prop) scope2 warns2).warns =
      (match chainLoop fs dump paths0 d' s w with
        | (some e, ctx2, scope2, warns2) =>
          dumpFields fs dump rest ctx2 scope2 (warns2 ++ [(key, e)])
        | (none, ctx2, scope2, warns2) =>
          dumpFields fs dump rest (keepBlock ctx2 key prop) scope2 warns2).warns ∧
      ∃ aops fops,
        (match chainLoop fs dump paths0 d s w with
          | (some e, ctx2, scope2, warns2) =>
            dumpFields fs dump rest ctx2 scope2 (warns2 ++ [(key, e)])
          | (none, ctx2, scope2, warns2) =>
            dumpFields fs dump rest (keepBlock ctx2 key prop) scope2 warns2).ctx.affix =
          dinsertAll d.affix aops ∧
        (match chainLoop fs dump paths0 d' s w with
          | (some e, ctx2, scope2, warns2) =>
            dumpFields fs dump rest ctx2 scope2 (warns2 ++ [(key, e)])
          | (none, ctx2, scope2, warns2) =>
            dumpFields fs dump rest (keepBlock ctx2 key prop) scope2 warns2).ctx.affix =
          dinsertAll d'.affix aops ∧
        (match chainLoop fs dump paths0 d s w with
          | (some e, ctx2, scope2, warns2) =>
            dumpFields fs dump rest ctx2 scope2 (warns2 ++ [(key, e)])
          | (none, ctx2, scope2, warns2) =>
            dumpFields fs dump rest (keepBlock ctx2 key prop) scope2 warns2).ctx.fieldProps =
          dinsertAll d.fieldProps fops ∧
        (match chainLoop fs dump paths0 d' s w with
          | (some e, ctx2, scope2, warns2) =>
            dumpFields fs dump rest ctx2 scope2 (warns2 ++ [(key, e)])
          | (none, ctx2, scope2, warns2) =>
            dumpFields fs dump rest (keepBlock ctx2 key prop) scope2 warns2).ctx.fieldProps =
          dinsertAll d'.fieldProps fops := by
  intro paths0 s w d d'
  obtain ⟨hch1, hch2, hch3, aops1, fops1, ha, ha2, hf, hf2⟩ :=
    chainLoop_congr fs dump hd paths0 s w d d'
  generalize hq : chainLoop fs dump paths0 d s w = q
  generalize hq2 : chainLoop fs dump paths0 d' s w = q2
  rw [hq, hq2] at hch1 hch2 hch3
  rw [hq] at ha hf
  rw [hq2] at ha2 hf2
  obtain ⟨qe, qc, qs, qw⟩ := q
  obtain ⟨qe2, qc2, qs2, qw2⟩ := q2
  dsimp only at hch1 hch2 hch3 ha ha2 hf hf2 ⊢
  subst hch1
  subst hch2
  subst hch3
  cases qe with
  | some e =>
    obtain ⟨e1, e2, e3, aops2, fops2, hb1, hb2, hb3, hb4⟩ :=
      ih qs (qw ++ [(key, e)]) qc qc2
    refine ⟨e1, e2, e3, aops1 ++ aops2, fops1 ++ fops2, ?_, ?_, ?_, ?_⟩
    · rw [hb1, ha, dinsertAll_append]
    · rw [hb2, ha2, dinsertAll_append]
    · rw [hb3, hf, dinsertAll_append]
    · rw [hb4, hf2, dinsertAll_append]
  | none =>
    obtain ⟨e1, e2, e3, aops2, fops2, hb1, hb2, hb3, hb4⟩ :=
      ih qs qw (keepBlock qc key prop) (keepBlock qc2 key prop)
    rw [keepBlock_affix] at hb1 hb2
    rw [keepBlock_fieldProps] at hb3 hb4
    refine ⟨e1, e2, e3, aops1 ++ aops2, fops1 ++ fops2, ?_, ?_, ?_, ?_⟩
    · rw [hb1, ha, dinsertAll_append]
    · rw [hb2, ha2, dinsertAll_append]
    · rw [hb3, hf, dinsertAll_append]
    · rw [hb4, hf2, dinsertAll_append]


theorem dumpFields_congr (fs : FileSys) (dump : DumpRec) (hd : DumpCongr dump) :
    ∀ (fields : List (String × Value)) (s : Dict) (w : List Warn) (c c' : Ctx),
      (dumpFields fs dump fields c s w).err = (dumpFields fs dump fields c' s w).err ∧
      (dumpFields fs dump fields c s w).scope = (dumpFields fs dump fields c' s w).scope ∧
      (dumpFields fs dump fields c s w).warns = (dumpFields fs dump fields c' s w).warns ∧
      ∃ aops fops,
        (dumpFields fs dump fields c s w).ctx.affix = dinsertAll c.affix aops ∧
        (dumpFields fs dump fields c' s w).ctx.affix = dinsertAll c'.affix aops ∧
        (dumpFields fs dump fields c s w).ctx.fieldProps = dinsertAll c.fieldProps fops ∧
        (dumpFields fs dump fields c' s w).ctx.fieldProps = dinsertAll c'.fieldProps fops := by
  intro fields
  induction fields with
  | nil =>
    intro s w c c'
    exact ⟨rfl, rfl, rfl, [], [], rfl, rfl, rfl, rfl⟩
  | cons kv rest ih =>
    intro s w c c'
    obtain ⟨key, rawProp⟩ := kv
    rcases hnorm : normalizeProp key rawProp with e | prop
    · unfold dumpFields
      rw [hnorm]
      exact ⟨rfl, rfl, rfl, [], [], rfl, rfl, rfl, rfl⟩
    · unfold dumpFields
      rw [hnorm]
      dsimp only
      split
      · split
        · rename_i e heq
          obtain ⟨e1, e2, e3, aops2, fops2, hb1, hb2, hb3, hb4⟩ :=
            ih s (w ++ [(key, e)])
              ⟨c.explicitlyKept, c.explicitlyDeleted, c.markedForDelete,
                dinsert c.fieldProps key prop, c.affix, c.fileStack⟩
              ⟨c'.explicitlyKept, c'.explicitlyDeleted, c'.markedForDelete,
                dinsert c'.fieldProps key prop, c'.affix, c'.fileStack⟩
          exact ⟨e1, e2, e3, aops2, (key, prop) :: fops2, hb1, hb2, hb3, hb4⟩
        · rename_i kv2 heq
          obtain ⟨e1, e2, e3, aops2, fops2, hb1, hb2, hb3, hb4⟩ :=
            dumpChainCase fs dump hd rest key prop ih
              (match kv2.2 with | Value.list xs => xs | v => [v]) s w
              ⟨c.explicitlyKept, c.explicitlyDeleted, c.markedForDelete,
                dinsert c.fieldProps key prop, c.affix, c.fileStack⟩
              ⟨c'.explicitlyKept, c'.explicitlyDeleted, c'.markedForDelete,
                dinsert c'.fieldProps key prop, c'.affix, c'.fileStack⟩
          exact ⟨e1, e2, e3, aops2, (key, prop) :: fops2, hb1, hb2, hb3, hb4⟩
      · split
        · rename_i e heq
          obtain ⟨e1, e2, e3, aops2, fops2, hb1, hb2, hb3, hb4⟩ :=
            ih s (w ++ [(key, e)])
              ⟨c.explicitlyKept, c.explicitlyDeleted, c.markedForDelete,
                dinsert c.fieldProps key prop, c.affix, c.fileStack⟩
              ⟨c'.explicitlyKept, c'.explicitlyDeleted, c'.markedForDelete,
                dinsert c'.fieldProps key prop, c'.affix, c'.fileStack⟩
          exact ⟨e1, e2, e3, aops2, (key, prop) :: fops2, hb1, hb2, hb3, hb4⟩
        · rename_i parsed heq
          obtain ⟨ro, rw0, hreg⟩ :=
            registerAffixable_spec fs key prop (dinsert s key parsed) (dinsert s key parsed)
          rw [hreg c.affix w, hreg c'.affix w]
          dsimp only
          obtain ⟨e1, e2, e3, aops2, fops2, hb1, hb2, hb3, hb4⟩ :=
            ih (dinsert s key parsed) (w ++ rw0)
              (keepBlock
                ⟨c.explicitlyKept, c.explicitlyDeleted, c.markedForDelete,
                  dinsert c.fieldProps key prop, dinsertAll c.affix ro, c.fileStack⟩
                key prop)
              (keepBlock
                ⟨c'.explicitlyKept, c'.explicitlyDeleted, c'.markedForDelete,
                  dinsert c'.fieldProps key prop, dinsertAll c'.affix ro, c'.fileStack⟩
                key prop)
          rw [keepBlock_affix] at hb1 hb2
          rw [keepBlock_fieldProps] at hb3 hb4
          dsimp only at hb1 hb2 hb3 hb4
          refine ⟨e1, e2, e3, ro ++ aops2, (key, prop) :: fops2, ?_, ?_, ?_, ?_⟩
          · rw [dinsertAll_append]
            exact hb1
          · rw [dinsertAll_append]
            exact hb2
          · rw [dinsertAll_cons]
            exact hb3
          · rw [dinsertAll_cons]
            exact hb4


theorem dumpGo_congr (fs : FileSys) : ∀ fuel, DumpCongr (dumpGo fs fuel) := by
  intro fuel
  induction fuel with
  | zero =>
    intro h s w c c'
    exact ⟨rfl, rfl, rfl, [], [], rfl, rfl, rfl, rfl⟩
  | succ fuel ih =>
    intro h s w c c'
    exact dumpFields_congr fs (dumpGo fs fuel) ih (derase h "configs") s w c c'

theorem plotStyleInit_ctx_fieldProps (fuel : Nat) (fs : FileSys) (doc : Dict)
    (lang : String) (keep : Bool) (c : Ctx) :
    (plotStyleInit fuel fs doc lang keep c).2.1.fieldProps =
      (dumpGo fs fuel doc c [] []).ctx.fieldProps := by
  unfold plotStyleInit
  dsimp only
  rcases he : (dumpGo fs fuel doc c [] []).err with _ | e
  · simp only [he]
    rcases hbr : buildReferenced (dumpGo fs fuel doc c [] []).ctx.fieldProps with e0 | refs
    · have h1 : resolveMarkedForDelete (dumpGo fs fuel doc c [] []).ctx = .error e0 := by
        unfold resolveMarkedForDelete
        rw [hbr]
      simp only [h1]
    · have h1 : resolveMarkedForDelete (dumpGo fs fuel doc c [] []).ctx =
          .ok ⟨(dumpGo fs fuel doc c [] []).ctx.explicitlyKept,
               (dumpGo fs fuel doc c [] []).ctx.explicitlyDeleted,
               sdiffL (saddAll (inferLoop (dumpGo fs fuel doc c [] []).ctx.fieldProps refs)
                   (dumpGo fs fuel doc c [] []).ctx.explicitlyDeleted)
                 (dumpGo fs fuel doc c [] []).ctx.explicitlyKept,
               (dumpGo fs fuel doc c [] []).ctx.fieldProps,
               (dumpGo fs fuel doc c [] []).ctx.affix,
               (dumpGo fs fuel doc c [] []).ctx.fileStack⟩ := by
        unfold resolveMarkedForDelete
        rw [hbr]
      simp only [h1]
      split
      · rfl
      · split <;> rfl
  · simp only [he]

theorem plotStyleInit_ctx_affix (fuel : Nat) (fs : FileSys) (doc : Dict)
    (lang : String) (keep : Bool) (c : Ctx) :
    (plotStyleInit fuel fs doc lang keep c).2.1.affix =
        (dumpGo fs fuel doc c [] []).ctx.affix ∨
      (plotStyleInit fuel fs doc lang keep c).2.1.affix =
        mapVals (localizeValue lang) (dumpGo fs fuel doc c [] []).ctx.affix := by
  unfold plotStyleInit
  dsimp only
  rcases he : (dumpGo fs fuel doc c [] []).err with _ | e
  · simp only [he]
    rcases hbr : buildReferenced (dumpGo fs fuel doc c [] []).ctx.fieldProps with e0 | refs
    · have h1 : resolveMarkedForDelete (dumpGo fs fuel doc c [] []).ctx = .error e0 := by
        unfold resolveMarkedForDelete
        rw [hbr]
      simp only [h1]
      exact Or.inl trivial
    · have h1 : resolveMarkedForDelete (dumpGo fs fuel doc c [] []).ctx =
          .ok ⟨(dumpGo fs fuel doc c [] []).ctx.explicitlyKept,
               (dumpGo fs fuel doc c [] []).ctx.explicitlyDeleted,
               sdiffL (saddAll (inferLoop (dumpGo fs fuel doc c [] []).ctx.fieldProps refs)
                   (dumpGo fs fuel doc c [] []).ctx.explicitlyDeleted)
                 (dumpGo fs fuel doc c [] []).ctx.explicitlyKept,
               (dumpGo fs fuel doc c [] []).ctx.fieldProps,
               (dumpGo fs fuel doc c [] []).ctx.affix,
               (dumpGo fs fuel doc c [] []).ctx.fileStack⟩ := by
        unfold resolveMarkedForDelete
        rw [hbr]
      simp only [h1]
      refine Or.inr ?_
      split
      · rfl
      · split <;> rfl
  · simp only [he]
    exact Or.inl trivial

theorem plotStyleInit_congr_res (fuel : Nat) (fs : FileSys) (doc : Dict)
    (lang : String) (keep : Bool) (c c' : Ctx)
    (haff : (dumpGo fs fuel doc c' [] []).ctx.affix = (dumpGo fs fuel doc c [] []).ctx.affix)
    (hfp : (dumpGo fs fuel doc c' [] []).ctx.fieldProps =
      (dumpGo fs fuel doc c [] []).ctx.fieldProps) :
    (plotStyleInit fuel fs doc lang keep c').1 = (plotStyleInit fuel fs doc lang keep c).1 := by
  obtain ⟨herr, hscope, hwarns, _⟩ :=
    dumpGo_congr fs fuel doc [] [] c c'
  unfold plotStyleInit
  dsimp only
  rw [← herr, ← hscope]
  rcases he : (dumpGo fs fuel doc c [] []).err with _ | e
  · simp only [he]
    rcases hbr : buildReferenced (dumpGo fs fuel doc c [] []).ctx.fieldProps with e0 | refs
    · have h1 : resolveMarkedForDelete (dumpGo fs fuel doc c [] []).ctx = .error e0 := by
        unfold resolveMarkedForDelete
        rw [hbr]
      have h2 : resolveMarkedForDelete (dumpGo fs fuel doc c' [] []).ctx = .error e0 := by
        unfold resolveMarkedForDelete
        rw [hfp, hbr]
      simp only [h1, h2]
    · have h1 : resolveMarkedForDelete (dumpGo fs fuel doc c [] []).ctx =
          .ok ⟨(dumpGo fs fuel doc c [] []).ctx.explicitlyKept,
               (dumpGo fs fuel doc c [] []).ctx.explicitlyDeleted,
               sdiffL (saddAll (inferLoop (dumpGo fs fuel doc c [] []).ctx.fieldProps refs)
                   (dumpGo fs fuel doc c [] []).ctx.explicitlyDeleted)
                 (dumpGo fs fuel doc c [] []).ctx.explicitlyKept,
               (dumpGo fs fuel doc c [] []).ctx.fieldProps,
               (dumpGo fs fuel doc c [] []).ctx.affix,
               (dumpGo fs fuel doc c [] []).ctx.fileStack⟩ := by
        unfold resolveMarkedForDelete
        rw [hbr]
      have h2 : resolveMarkedForDelete (dumpGo fs fuel doc c' [] []).ctx =
          .ok ⟨(dumpGo fs fuel doc c' [] []).ctx.explicitlyKept,
               (dumpGo fs fuel doc c' [] []).ctx.explicitlyDeleted,
               sdiffL (saddAll (inferLoop (dumpGo fs fuel doc c' [] []).ctx.fieldProps refs)
                   (dumpGo fs fuel doc c' [] []).ctx.explicitlyDeleted)
                 (dumpGo fs fuel doc c' [] []).ctx.explicitlyKept,
               (dumpGo fs fuel doc c' [] []).ctx.fieldProps,
               (dumpGo fs fuel doc c' [] []).ctx.affix,
               (dumpGo fs fuel doc c' [] []).ctx.fileStack⟩ := by
        unfold resolveMarkedForDelete
        rw [hfp, hbr]
      simp only [h1, h2]
      rw [haff]
      split
      · rfl
      · split <;> rfl
  · simp only [he]

/-- C9 — idempotence/determinism of the full resolution: a second
construction with the same document, file system, language and
keep-all-fields option — sharing the mutable default `_ParseContext` the
first construction mutated — returns the same resolved mapping (or the
same propagated error) as the first.  The leaked context only ever
receives the same `field_props` / affix-registry writes again, and the
returned mapping never reads the leaked keep/delete/file-stack state. -/
theorem resolutionIdempotent (fuel : Nat) (fs : FileSys) (doc : Dict)
    (lang : String) (keep : Bool) :
    (plotStyleInit fuel fs doc lang keep
        (plotStyleInit fuel fs doc lang keep emptyCtx).2.1).1 =
      (plotStyleInit fuel fs doc lang keep emptyCtx).1 := by
  refine plotStyleInit_congr_res fuel fs doc lang keep emptyCtx _ ?_ ?_
  · obtain ⟨_, _, _, aops, fops, ha1, ha2, hf1, hf2⟩ :=
      dumpGo_congr fs fuel doc [] [] emptyCtx
        (plotStyleInit fuel fs doc lang keep emptyCtx).2.1
    have hE : emptyCtx.affix = ([] : Dict) := rfl
    rw [hE] at ha1
    rcases plotStyleInit_ctx_affix fuel fs doc lang keep emptyCtx with hCa | hCa
    · rw [hCa, ha1] at ha2
      rw [dinsertAll_absorb] at ha2
      rw [ha2, ha1]
    · rw [hCa, ha1] at ha2
      rw [dinsertAll_mapVals_absorb] at ha2
      rw [ha2, ha1]
  · obtain ⟨_, _, _, aops, fops, ha1, ha2, hf1, hf2⟩ :=
      dumpGo_congr fs fuel doc [] [] emptyCtx
        (plotStyleInit fuel fs doc lang keep emptyCtx).2.1
    have hE : emptyCtx.fieldProps = ([] : AList Dict) := rfl
    rw [hE] at hf1
    rw [plotStyleInit_ctx_fieldProps fuel fs doc lang keep emptyCtx, hf1] at hf2
    rw [dinsertAll_absorb] at hf2
    rw [hf2, hf1]

end PlotStyle
